import Mathlib

/-!
Shallow embedding of the JSON parser core of `anthropic-export-extractor`
(`src/anthropic_export_extractor/json_parser.c`).

Modelling conventions, stated once:

* The input buffer is a `List Nat` of byte values; the scanner cursor is kept
  as the not-yet-consumed suffix (`Parser.rest`).  The C code indexes a fixed
  buffer with `parser->position` and always reads at the cursor, so the two
  representations coincide (`rest = input.drop position`, `length - position
  = rest.length`).  The one place the C code moves the cursor backwards — the
  `parser->position--; parser->column--;` at the end of the `\uXXXX` case,
  immediately followed by the common `parser->position++; parser->column++;`
  of the escape `switch` — is modelled by the cancelled net effect.
* Each `snprintf(parser->error, ...)` site is mapped to one `ErrKind`
  constructor; the C error buffer holds the last message written, so
  `Parser.error` is overwritten the same way.
* `malloc`/`calloc`/`realloc` are assumed to succeed (allocation failure
  paths are not modelled); `json_value_free` is memory management with no
  observable effect on the tree and is not modelled.
* IEEE-754 doubles are idealised as exact decimal values `m * 10^e` (`Dec`
  below); `strtod` is modelled as exact decimal conversion, with its ERANGE
  behaviour idealised by a decimal magnitude test (`rangeErr`).  The claims
  settled here only ever evaluate numbers that are exactly representable, so
  this idealisation is not load-bearing for any verdict about doubles.
* `errno` is process-wide state read by `parse_number` (which never clears
  it before calling `strtod`); it is threaded as the `errnoRange` field and
  the initial/ambient value is an explicit argument of `json_parse`.
* The recursive-descent functions terminate in C because the position
  strictly advances; the Lean embedding threads a fuel parameter through the
  mutually recursive container parsers and `json_parse` passes
  `3 * (length + 1)` fuel, which is more than the call depth the C code can
  reach on an input of that length, so the `fuelExhausted` branch is dead.
-/

/-- Idealised double: the exact decimal value `m * 10^e`. -/
structure Dec where
  m : Int
  e : Int
  deriving DecidableEq, Repr

/-- Digit-count worker with explicit fuel (kernel-reduction friendly). -/
def dcAux : Nat → Nat → Nat
  | 0, _ => 0
  | f + 1, n => if n = 0 then 0 else dcAux f (n / 10) + 1

/-- Number of decimal digits of `n` (0 for 0); exact for `n < 10^400`,
which covers every value producible from a 63-byte numeric token. -/
def digitCount (n : Nat) : Nat := dcAux 400 n

/-- Strip factors of ten out of the mantissa, moving them into the
exponent; fuel-bounded worker (exact whenever the count of trailing
zeros is below the fuel). -/
def stripAux : Nat → Int → Int → Dec
  | 0, m, e => ⟨m, e⟩
  | f + 1, m, e => if m % 10 = 0 then stripAux f (m / 10) (e + 1) else ⟨m, e⟩

/-- Canonical decimal from mantissa and exponent: `0` is `⟨0, 0⟩`, and
otherwise trailing zeros of `m` move into `e` (fuel 100 is exact for every
mantissa below `10^100`, in particular for every token-derived one). -/
def mkDec (m0 e0 : Int) : Dec := if m0 = 0 then ⟨0, 0⟩ else stripAux 100 m0 e0

/-- Byte test for JSON whitespace, as in `skip_whitespace`. -/
def isWsB (c : Nat) : Bool := c = 32 || c = 9 || c = 13 || c = 10

/-- Byte test for `isdigit`. -/
def isDigitB (c : Nat) : Bool := 48 ≤ c && c ≤ 57

/-- MSB-first decimal digit bytes of a positive number; fuel-structural so
that it reduces in the kernel (fuel 400 is exact below `10^400`). -/
def natDecimalAux : Nat → Nat → List Nat
  | 0, _ => []
  | f + 1, n => if n = 0 then [] else natDecimalAux f (n / 10) ++ [n % 10 + 48]

/-- MSB-first decimal digit bytes of `n` (at least one digit, as printf
`%.0f` produces). -/
def natDecimal (n : Nat) : List Nat :=
  if n = 0 then [48] else natDecimalAux 400 n

/-- Value of MSB-first decimal digit bytes. -/
def digitsVal (l : List Nat) : Nat := l.foldl (fun a c => a * 10 + (c - 48)) 0

/-- One `ErrKind` constructor per `snprintf(parser->error, ...)` site of
`json_parser.c`; `noError` is the zero-initialised error buffer. -/
inductive ErrKind where
  | noError
  | unexpectedEndOfInput
  | expectedChar (want got : Nat)
  | invalidNullLiteral
  | invalidBooleanLiteral
  | invalidNumber
  | leadingZeros
  | numberTooLarge
  | invalidDecimal
  | invalidExponent
  | invalidNumberFormat
  | stringTooLong
  | unterminatedString
  | invalidUnicodeEscape
  | invalidHexDigit
  | invalidEscapeSequence
  | invalidControlCharacter
  | maxNestingDepthExceeded
  | expectedStringKey
  | unexpectedCharacter (c : Nat)
  | trailingDataAfterValue
  | fuelExhausted
  deriving DecidableEq, Repr

/-- The specification's `InvalidNumberFormat` error class: every
`parse_number` failure message (spec §4.3 groups the number-grammar and
conversion failures under this one tag). -/
def numberErrB : ErrKind → Bool
  | .invalidNumber => true
  | .leadingZeros => true
  | .numberTooLarge => true
  | .invalidDecimal => true
  | .invalidExponent => true
  | .invalidNumberFormat => true
  | _ => false

/-- The JSON value tree (`JsonValue` of `json_parser.h`): strings are owned
byte buffers, containers are ordered sequences (capacity bookkeeping of the
C growable arrays has no observable effect and is not modelled). -/
inductive JsonValue where
  | null
  | boolean (b : Bool)
  | number (d : Dec)
  | string (s : List Nat)
  | array (items : List JsonValue)
  | object (pairs : List (List Nat × JsonValue))

/-- The `Parser` struct: `rest` is the unconsumed input suffix, the other
fields mirror `line`, `column`, `error`, `depth`, plus the ambient `errno`
ERANGE flag the C code reads through `errno == ERANGE`. -/
structure Parser where
  rest : List Nat
  line : Nat
  column : Nat
  error : ErrKind
  depth : Nat
  errnoRange : Bool
  deriving DecidableEq, Repr

/-- `snprintf(parser->error, ...)`: overwrite the error buffer. -/
def errSet (p : Parser) (k : ErrKind) : Parser := { p with error := k }

/-- Worker for `skip_whitespace`: returns remaining input, line, column. -/
def skip_whitespace_aux : List Nat → Nat → Nat → List Nat × Nat × Nat
  | [], line, col => ([], line, col)
  | c :: r, line, col =>
    if isWsB c then
      if c = 10 then skip_whitespace_aux r (line + 1) 0
      else skip_whitespace_aux r line (col + 1)
    else (c :: r, line, col)

/-- `skip_whitespace`. -/
def skip_whitespace (p : Parser) : Parser :=
  match p with
  | ⟨rest, line, col, err, dep, ern⟩ =>
    match skip_whitespace_aux rest line col with
    | (r, ln, cl) => ⟨r, ln, cl, err, dep, ern⟩

/-- `peek_char`: skips whitespace (mutating the parser) and checks the next
byte without consuming it. -/
def peek_char (p0 : Parser) (expected : Nat) : Bool × Parser :=
  match skip_whitespace p0 with
  | ⟨rest, line, col, err, dep, ern⟩ =>
    match rest with
    | [] => (false, ⟨[], line, col, err, dep, ern⟩)
    | c :: r => (c = expected, ⟨c :: r, line, col, err, dep, ern⟩)

/-- `consume_char`: skips whitespace, then consumes one matching byte or
fails with a position-tagged diagnostic. -/
def consume_char (p0 : Parser) (expected : Nat) : Bool × Parser :=
  match skip_whitespace p0 with
  | ⟨rest, line, col, err, dep, ern⟩ =>
    match rest with
    | [] => (false, ⟨[], line, col, .unexpectedEndOfInput, dep, ern⟩)
    | c :: r =>
      if c = expected then (true, ⟨r, line, col + 1, err, dep, ern⟩)
      else (false, ⟨c :: r, line, col, .expectedChar expected c, dep, ern⟩)

/-- `parse_null`: requires the exact four bytes of `null`. -/
def parse_null (p : Parser) : Option JsonValue × Parser :=
  if p.rest.take 4 = [110, 117, 108, 108] then
    (some .null, { p with rest := p.rest.drop 4, column := p.column + 4 })
  else (none, errSet p .invalidNullLiteral)

/-- `parse_boolean`: exact `true` or `false`. -/
def parse_boolean (p : Parser) : Option JsonValue × Parser :=
  if p.rest.take 4 = [116, 114, 117, 101] then
    (some (.boolean true), { p with rest := p.rest.drop 4, column := p.column + 4 })
  else if p.rest.take 5 = [102, 97, 108, 115, 101] then
    (some (.boolean false), { p with rest := p.rest.drop 5, column := p.column + 5 })
  else (none, errSet p .invalidBooleanLiteral)

/-- The 64-byte `char buffer[MAX_NUMBER_SIZE]` of `parse_number` together
with the trace of indices written so far (`tr` records, for every
`buffer[buffer_pos++] = c` and the final `buffer[buffer_pos] = 0`, the index
written; an entry `≥ 64` is a write past the end of the C array). -/
structure NumAcc where
  buf : List Nat
  tr : List Nat
  deriving Repr

/-- One `buffer[buffer_pos++] = c`. -/
def numWrite (a : NumAcc) (c : Nat) : NumAcc :=
  { buf := a.buf ++ [c], tr := a.tr ++ [a.buf.length] }

/-- Worker of the digit-accumulation `while` loops of `parse_number`,
structurally recursive on the remaining input: returns success flag (false
is the `Number too large` failure), remaining input, column, accumulator. -/
def num_digits_go : List Nat → Nat → NumAcc → Bool × List Nat × Nat × NumAcc
  | [], col, a => (true, [], col, a)
  | c :: r, col, a =>
    if isDigitB c then
      if 63 ≤ a.buf.length then (false, c :: r, col, a)
      else num_digits_go r (col + 1) (numWrite a c)
    else (true, c :: r, col, a)

/-- A digit-accumulation `while` loop of `parse_number` (integer, fraction
and exponent parts share this shape): bound-checked before every write,
failing with `Number too large`. -/
def num_digits_loop (p : Parser) (a : NumAcc) : Bool × Parser × NumAcc :=
  match num_digits_go p.rest p.column a with
  | (true, r, col, a') => (true, { p with rest := r, column := col }, a')
  | (false, r, col, a') => (false, errSet { p with rest := r, column := col } .numberTooLarge, a')

/-- Integer part of `parse_number`: presence of a digit, the single-`0`
rule (leading zeros rejected), or the general digit loop. -/
def pn_int (p : Parser) (a : NumAcc) : Bool × Parser × NumAcc :=
  match p.rest with
  | [] => (false, errSet p .invalidNumber, a)
  | c :: r =>
    if ¬ (isDigitB c) then (false, errSet p .invalidNumber, a)
    else if c = 48 then
      let p1 : Parser := { p with rest := r, column := p.column + 1 }
      let a1 := numWrite a 48
      match p1.rest with
      | d :: _ => if isDigitB d then (false, errSet p1 .leadingZeros, a1) else (true, p1, a1)
      | [] => (true, p1, a1)
    else num_digits_loop p a

/-- Fraction part of `parse_number`: an unguarded write of `'.'`, then at
least one digit, then the digit loop. -/
def pn_frac (p : Parser) (a : NumAcc) : Bool × Parser × NumAcc :=
  match p.rest with
  | [] => (true, p, a)
  | c :: r =>
    if c = 46 then
      let p1 : Parser := { p with rest := r, column := p.column + 1 }
      let a1 := numWrite a 46
      match r with
      | [] => (false, errSet p1 .invalidDecimal, a1)
      | d :: _ =>
        if ¬ (isDigitB d) then (false, errSet p1 .invalidDecimal, a1)
        else num_digits_loop p1 a1
    else (true, p, a)

/-- Exponent part of `parse_number`: unguarded writes of `e`/`E` and of the
optional sign (the sign write is the one that can land at index 64), then
at least one digit, then the digit loop.  `pn_exp_digits` is the
at-least-one-digit check and loop shared by the signed and unsigned
paths. -/
def pn_exp_digits (p2 : Parser) (a2 : NumAcc) : Bool × Parser × NumAcc :=
  match p2.rest with
  | [] => (false, errSet p2 .invalidExponent, a2)
  | d :: _ =>
    if ¬ (isDigitB d) then (false, errSet p2 .invalidExponent, a2)
    else num_digits_loop p2 a2

def pn_exp (p : Parser) (a : NumAcc) : Bool × Parser × NumAcc :=
  match p.rest with
  | c :: r =>
    if c = 101 ∨ c = 69 then
      let p1 : Parser := { p with rest := r, column := p.column + 1 }
      let a1 := numWrite a c
      match r with
      | [] => (false, errSet p1 .invalidExponent, a1)
      | s :: r2 =>
        if s = 43 ∨ s = 45 then
          pn_exp_digits { p1 with rest := r2, column := p1.column + 1 } (numWrite a1 s)
        else pn_exp_digits p1 a1
    else (true, p, a)
  | [] => (true, p, a)

/-- Decimal value of a validated numeric token, as `strtod` computes it
(idealised as exact decimal conversion; every token reaching this point is
fully consumed by `strtod` in the C locale, so the `*endptr` check of the C
code never fires and is not modelled). -/
def decOfToken (t : List Nat) : Dec :=
  let (sgn, t1) : Int × List Nat :=
    match t with
    | [] => (1, [])
    | c :: r => if c = 45 then (-1, r) else (1, c :: r)
  let ip := t1.takeWhile isDigitB
  let r1 := t1.dropWhile isDigitB
  let (fp, r2) : List Nat × List Nat :=
    match r1 with
    | [] => ([], [])
    | c :: r =>
      if c = 46 then (r.takeWhile isDigitB, r.dropWhile isDigitB) else ([], c :: r)
  let ex : Int :=
    match r2 with
    | [] => 0
    | c :: r3 =>
      if c = 101 ∨ c = 69 then
        match r3 with
        | [] => 0
        | s :: r4 =>
          if s = 45 then -(digitsVal (r4.takeWhile isDigitB) : Int)
          else if s = 43 then (digitsVal (r4.takeWhile isDigitB) : Int)
          else (digitsVal ((s :: r4).takeWhile isDigitB) : Int)
      else 0
  mkDec (sgn * (digitsVal (ip ++ fp) : Int)) (ex - (fp.length : Int))

/-- Idealised `strtod` ERANGE test: overflow when the decimal magnitude
certainly exceeds the double range, underflow when it is certainly below
the smallest subnormal.  Exact double thresholds are binary and not decided
by any claim settled here. -/
def rangeErr (d : Dec) : Bool :=
  if d.m = 0 then false
  else 309 < (digitCount d.m.natAbs : Int) + d.e || (digitCount d.m.natAbs : Int) + d.e < -323

/-- End of `parse_number` after the grammar stages: the terminating
`buffer[buffer_pos] = 0` write (recorded in the trace), the `strtod`
conversion, and the `errno == ERANGE` check on the never-cleared errno. -/
def pn_finish (p3 : Parser) (a3 : NumAcc) : Option Dec × Parser × List Nat :=
  let a4 : NumAcc := { a3 with tr := a3.tr ++ [a3.buf.length] }
  let d := decOfToken a4.buf
  let ernew := p3.errnoRange || rangeErr d
  if ernew then (none, { errSet p3 .invalidNumberFormat with errnoRange := ernew }, a4.tr)
  else (some d, { p3 with errnoRange := ernew }, a4.tr)

/-- `parse_number` from after the fraction stage. -/
def pn_after_frac (p2 : Parser) (a2 : NumAcc) : Option Dec × Parser × List Nat :=
  match pn_exp p2 a2 with
  | (false, p3, a3) => (none, p3, a3.tr)
  | (true, p3, a3) => pn_finish p3 a3

/-- `parse_number` from after the integer-part stage. -/
def pn_after_int (p1 : Parser) (a1 : NumAcc) : Option Dec × Parser × List Nat :=
  match pn_frac p1 a1 with
  | (false, p2, a2) => (none, p2, a2.tr)
  | (true, p2, a2) => pn_after_frac p2 a2

/-- `parse_number` from after the optional leading `-`. -/
def pn_after_sign (p : Parser) (a : NumAcc) : Option Dec × Parser × List Nat :=
  match pn_int p a with
  | (false, p1, a1) => (none, p1, a1.tr)
  | (true, p1, a1) => pn_after_int p1 a1

/-- `parse_number`, returning also the full write trace of the 64-byte
token buffer.  The final component records every index written; the C
array bound is 64, so a trace entry `≥ 64` is an out-of-bounds write. -/
def parse_number_core (p : Parser) : Option Dec × Parser × List Nat :=
  match p.rest with
  | [] => pn_after_sign p ⟨[], []⟩
  | c :: r =>
    if c = 45 then
      pn_after_sign { p with rest := r, column := p.column + 1 } (numWrite ⟨[], []⟩ 45)
    else pn_after_sign p ⟨[], []⟩

/-- `parse_number` as called by `parse_value`. -/
def parse_number (p : Parser) : Option JsonValue × Parser :=
  match parse_number_core p with
  | (some d, p', _) => (some (.number d), p')
  | (none, p', _) => (none, p')

/-- `parse_hex_digit`. -/
def parse_hex_digit (c : Nat) : Int :=
  if 48 ≤ c ∧ c ≤ 57 then (c : Int) - 48
  else if 97 ≤ c ∧ c ≤ 102 then (c : Int) - 97 + 10
  else if 65 ≤ c ∧ c ≤ 70 then (c : Int) - 65 + 10
  else -1

/-- The UTF-8 encoding branches of the `\uXXXX` case: 1, 2 or 3 bytes by
magnitude, exactly the bit operations of the C code. -/
def utf8enc (cp : Nat) : List Nat :=
  if cp < 128 then [cp]
  else if cp < 2048 then [192 ||| (cp >>> 6), 128 ||| (cp &&& 63)]
  else [224 ||| (cp >>> 12), 128 ||| ((cp >>> 6) &&& 63), 128 ||| (cp &&& 63)]

/-- Worker of the scan loop of `parse_string`, structurally recursive on
the remaining input: returns the decoded buffer or the error kind, plus
remaining input and column.  Checks in C order: the `while` condition
(closing quote / end of input), the output-buffer bound
(`MAX_STRING_SIZE - 1 = 2097151`), backslash escapes, the control-character
exclusion, verbatim copy.  The four-iteration hex loop of the `\uXXXX`
case is unrolled (per iteration: end-of-input is `Invalid unicode escape`,
a non-hex byte is `Invalid hex digit`).  On an escape error the C cursor
stops inside the escape; the exact stop offset is diagnostic-only and the
model keeps the cursor where the sub-case dispatched. -/
def string_scan_go : List Nat → Nat → List Nat → Except ErrKind (List Nat) × List Nat × Nat
  | [], col, _ => (.error .unterminatedString, [], col)
  | c :: r, col, buf =>
    if c = 34 then (.ok buf, r, col + 1)
    else if 2097151 ≤ buf.length then (.error .stringTooLong, c :: r, col)
    else if c = 92 then
      match r with
      | [] => (.error .unterminatedString, [], col + 1)
      | e :: r2 =>
        if e = 34 then string_scan_go r2 (col + 2) (buf ++ [34])
        else if e = 92 then string_scan_go r2 (col + 2) (buf ++ [92])
        else if e = 47 then string_scan_go r2 (col + 2) (buf ++ [47])
        else if e = 98 then string_scan_go r2 (col + 2) (buf ++ [8])
        else if e = 102 then string_scan_go r2 (col + 2) (buf ++ [12])
        else if e = 110 then string_scan_go r2 (col + 2) (buf ++ [10])
        else if e = 114 then string_scan_go r2 (col + 2) (buf ++ [13])
        else if e = 116 then string_scan_go r2 (col + 2) (buf ++ [9])
        else if e = 117 then
          match r2 with
          | [] => (.error .invalidUnicodeEscape, r2, col + 2)
          | c1 :: r3 =>
            if parse_hex_digit c1 < 0 then (.error .invalidHexDigit, r2, col + 2)
            else
              match r3 with
              | [] => (.error .invalidUnicodeEscape, r2, col + 2)
              | c2 :: r4 =>
                if parse_hex_digit c2 < 0 then (.error .invalidHexDigit, r2, col + 2)
                else
                  match r4 with
                  | [] => (.error .invalidUnicodeEscape, r2, col + 2)
                  | c3 :: r5 =>
                    if parse_hex_digit c3 < 0 then (.error .invalidHexDigit, r2, col + 2)
                    else
                      match r5 with
                      | [] => (.error .invalidUnicodeEscape, r2, col + 2)
                      | c4 :: r6 =>
                        if parse_hex_digit c4 < 0 then (.error .invalidHexDigit, r2, col + 2)
                        else
                          string_scan_go r6 (col + 6)
                            (buf ++ utf8enc ((((((parse_hex_digit c1).toNat <<< 4) |||
                              (parse_hex_digit c2).toNat) <<< 4) |||
                              (parse_hex_digit c3).toNat) <<< 4 |||
                              (parse_hex_digit c4).toNat))
        else (.error .invalidEscapeSequence, e :: r2, col + 1)
    else if c < 32 then (.error .invalidControlCharacter, c :: r, col)
    else string_scan_go r (col + 1) (buf ++ [c])

/-- The scan loop of `parse_string` on the parser state. -/
def string_scan (p : Parser) (buf : List Nat) : Option (List Nat) × Parser :=
  match string_scan_go p.rest p.column buf with
  | (.ok s, r, col) => (some s, { p with rest := r, column := col })
  | (.error k, r, col) => (none, errSet { p with rest := r, column := col } k)

/-- `parse_string`: opening quote via `consume_char`, then the scan loop
(the final NUL terminator and the shrinking `realloc` do not change the
owned byte content and are not modelled). -/
def parse_string (p : Parser) : Option JsonValue × Parser :=
  match consume_char p 34 with
  | (false, p') => (none, p')
  | (true, p') =>
    match string_scan p' [] with
    | (some s, p'') => (some (.string s), p'')
    | (none, p'') => (none, p'')

mutual

/-- `parse_value`: whitespace skip, then dispatch on the lookahead byte. -/
def parse_value : Nat → Parser → Option JsonValue × Parser
  | 0, p => (none, errSet p .fuelExhausted)
  | fuel + 1, p0 =>
    match skip_whitespace p0 with
    | ⟨rest, line, col, err, dep, ern⟩ =>
      match rest with
      | [] => (none, ⟨[], line, col, .unexpectedEndOfInput, dep, ern⟩)
      | c :: r =>
        let p : Parser := ⟨c :: r, line, col, err, dep, ern⟩
        if c = 110 then parse_null p
        else if c = 116 || c = 102 then parse_boolean p
        else if c = 34 then parse_string p
        else if c = 91 then parse_array fuel p
        else if c = 123 then parse_object fuel p
        else if c = 45 || isDigitB c then parse_number p
        else (none, ⟨c :: r, line, col, .unexpectedCharacter c, dep, ern⟩)

/-- `parse_array`: consume `[`, increment and check the shared depth
counter (`MAX_DEPTH = 128`), handle `[]`, else run the element loop.  As in
the C code, the depth counter is decremented only on the success paths. -/
def parse_array : Nat → Parser → Option JsonValue × Parser
  | 0, p => (none, errSet p .fuelExhausted)
  | fuel + 1, p =>
    match consume_char p 91 with
    | (false, p1) => (none, p1)
    | (true, p1) =>
      let p2 : Parser := { p1 with depth := p1.depth + 1 }
      if 128 < p2.depth then (none, errSet p2 .maxNestingDepthExceeded)
      else
        match peek_char (skip_whitespace p2) 93 with
        | (true, p4) =>
          match consume_char p4 93 with
          | (_, p5) => (some (.array []), { p5 with depth := p5.depth - 1 })
        | (false, p4) =>
          match parse_array_items fuel p4 [] with
          | (some items, p5) => (some (.array items), { p5 with depth := p5.depth - 1 })
          | (none, p5) => (none, p5)

/-- The `while (1)` element loop of `parse_array`: parse an element, append
it, then either consume `]` and stop or require `,`. -/
def parse_array_items : Nat → Parser → List JsonValue → Option (List JsonValue) × Parser
  | 0, p, _ => (none, errSet p .fuelExhausted)
  | fuel + 1, p, acc =>
    match parse_value fuel p with
    | (none, p1) => (none, p1)
    | (some item, p1) =>
      let acc := acc ++ [item]
      match peek_char (skip_whitespace p1) 93 with
      | (true, p3) => (some acc, (consume_char p3 93).2)
      | (false, p3) =>
        match consume_char p3 44 with
        | (false, p4) => (none, p4)
        | (true, p4) => parse_array_items fuel p4 acc

/-- `parse_object`: like `parse_array` with `{`/`}` and key-value pairs. -/
def parse_object : Nat → Parser → Option JsonValue × Parser
  | 0, p => (none, errSet p .fuelExhausted)
  | fuel + 1, p =>
    match consume_char p 123 with
    | (false, p1) => (none, p1)
    | (true, p1) =>
      let p2 : Parser := { p1 with depth := p1.depth + 1 }
      if 128 < p2.depth then (none, errSet p2 .maxNestingDepthExceeded)
      else
        match peek_char (skip_whitespace p2) 125 with
        | (true, p4) =>
          match consume_char p4 125 with
          | (_, p5) => (some (.object []), { p5 with depth := p5.depth - 1 })
        | (false, p4) =>
          match parse_object_items fuel p4 [] with
          | (some pairs, p5) => (some (.object pairs), { p5 with depth := p5.depth - 1 })
          | (none, p5) => (none, p5)

/-- The pair loop of `parse_object`: a string key (any `parse_string`
failure is overwritten with `Expected string key`, as the C code's
`snprintf` does), then `:`, a value, and `}` or `,`. -/
def parse_object_items : Nat → Parser → List (List Nat × JsonValue) →
    Option (List (List Nat × JsonValue)) × Parser
  | 0, p, _ => (none, errSet p .fuelExhausted)
  | fuel + 1, p, acc =>
    match parse_string p with
    | (none, p1) => (none, errSet p1 .expectedStringKey)
    | (some kv, p1) =>
      match kv with
      | .string key =>
        match consume_char p1 58 with
        | (false, p2) => (none, p2)
        | (true, p2) =>
          match parse_value fuel p2 with
          | (none, p3) => (none, p3)
          | (some v, p3) =>
            let acc := acc ++ [(key, v)]
            match peek_char (skip_whitespace p3) 125 with
            | (true, p5) => (some acc, (consume_char p5 125).2)
            | (false, p5) =>
              match consume_char p5 44 with
              | (false, p6) => (none, p6)
              | (true, p6) => parse_object_items fuel p6 acc
      | _ => (none, errSet p1 .expectedStringKey)

end

/-- The initial parser state `json_parse` builds for a buffer. -/
def initParser (errn : Bool) (l : List Nat) : Parser := ⟨l, 1, 1, .noError, 0, errn⟩

/-- Fuel `json_parse` supplies; strictly more than the recursion the C code
can perform on an input of this length, so the fuel never runs out. -/
def initFuel (l : List Nat) : Nat := 3 * (l.length + 1)

/-- `json_parse`: NULL-buffer guard, one `parse_value`, then the
trailing-data check.  The second component is the stderr trace: the list of
diagnostics printed by the two `fprintf(stderr, ...)` sites (empty exactly
when nothing is printed). -/
def json_parse (errn : Bool) (input : Option (List Nat)) : Option JsonValue × List ErrKind :=
  match input with
  | none => (none, [])
  | some l =>
    match parse_value (initFuel l) (initParser errn l) with
    | (some v, p1) =>
      match (skip_whitespace p1).rest with
      | [] => (some v, [])
      | _ :: _ => (none, [.trailingDataAfterValue])
    | (none, p1) => (none, [p1.error])

/-- C-string truncation: everything a `%s`/`strcmp` use site sees of an
owned byte buffer (bytes up to the first NUL). -/
def truncNul (s : List Nat) : List Nat := s.takeWhile (fun b => b ≠ 0)

/-- `strcmp(a, b) == 0` on owned byte buffers. -/
def c_str_eq (a b : List Nat) : Bool := truncNul a = truncNul b

/-- `json_print_indent`: two spaces per level. -/
def json_print_indent (indent : Nat) : List Nat := List.replicate (2 * indent) 32

/-- The `value->data.number == floor(value->data.number)` test of
`json_print_value`, on idealised decimals.  Exact on canonical `Dec`
values (trailing-zero-free mantissa), which is everything the parser
produces; the `-400` cut-off only guards kernel reduction against
astronomically scaled non-parser values. -/
def dec_is_integral (d : Dec) : Bool :=
  d.m = 0 || 0 ≤ d.e || (-400 ≤ d.e && d.m % (10 : Int) ^ (-d.e).toNat = 0)

/-- The `fabs(value->data.number) < 1e10` test: for `m ≠ 0` the decimal
magnitude `m * 10^e` is below `10^10` iff digit count plus exponent is at
most 10. -/
def dec_abs_lt_1e10 (d : Dec) : Bool :=
  d.m = 0 || (digitCount d.m.natAbs : Int) + d.e ≤ 10

/-- Integer value of an integral `Dec` (the `%.0f` branch only ever sees
integral values, where this is exact). -/
def decAbsIntegral (d : Dec) : Nat :=
  if 0 ≤ d.e then d.m.natAbs * 10 ^ d.e.toNat else d.m.natAbs / 10 ^ (-d.e).toNat

/-- `printf("%.0f", v)` on an integral double: optional sign and the plain
decimal digits. -/
def fmtF0 (d : Dec) : List Nat :=
  (if d.m < 0 then [45] else []) ++ natDecimal (decAbsIntegral d)

/-- Drop trailing `'0'` bytes (the trailing-zero suppression of `%g`). -/
def stripTrail (l : List Nat) : List Nat := (l.reverse.dropWhile (fun b => b = 48)).reverse

/-- Round the magnitude of `d` to six significant decimal digits, returning
the six-digit mantissa and the decimal exponent of the rounded value
(`printf` rounds in binary with the current rounding mode; this idealised
decimal half-up rounding agrees wherever the decision is not within one ulp
of a tie, and no claim here evaluates `%g` at all). -/
def round6 (d : Dec) : Nat × Int :=
  let a := d.m.natAbs
  let dc := digitCount a
  if dc ≤ 6 then (a * 10 ^ (6 - dc), (dc : Int) - 1 + d.e)
  else
    let sh := dc - 6
    let q := a / 10 ^ sh
    let r := a % 10 ^ sh
    let q' := if 10 ^ sh ≤ 2 * r then q + 1 else q
    if q' = 10 ^ 6 then (10 ^ 5, (dc : Int) + d.e) else (q', (dc : Int) - 1 + d.e)

/-- Two-digit-minimum exponent field of the `%e` style used by `%g`. -/
def expField (x : Int) : List Nat :=
  let ds := natDecimal x.natAbs
  (if x < 0 then [45] else [43]) ++ (if ds.length < 2 then 48 :: ds else ds)

/-- `printf("%g", v)` (default precision 6) on an idealised decimal:
round to six significant digits, choose fixed or scientific style by the
exponent, and strip trailing zeros.  No theorem below depends on this
branch; it exists so that `json_print_value` is total on all values. -/
def fmtG (d : Dec) : List Nat :=
  if d.m = 0 then [48]
  else
    let (mant, x) := round6 d
    let ds := natDecimal mant
    let sign : List Nat := if d.m < 0 then [45] else []
    if -4 ≤ x ∧ x < 6 then
      if 0 ≤ x then
        let ip := ds.take (x.toNat + 1)
        let fp := stripTrail (ds.drop (x.toNat + 1))
        sign ++ ip ++ (if fp.isEmpty then [] else 46 :: fp)
      else
        sign ++ [48, 46] ++ List.replicate ((-x).toNat - 1) 48 ++ stripTrail ds
    else
      let fp := stripTrail (ds.drop 1)
      sign ++ [ds.headI] ++ (if fp.isEmpty then [] else 46 :: fp) ++ [101] ++ expField x

mutual

/-- `json_print_value`: pretty mode emits two-space indentation and
newlines, compact mode emits none; strings and object keys are printed
through `%s` (no escaping, content up to the first NUL). -/
def json_print_value : JsonValue → Nat → Bool → List Nat
  | .null, _, _ => [110, 117, 108, 108]
  | .boolean b, _, _ => if b then [116, 114, 117, 101] else [102, 97, 108, 115, 101]
  | .number d, _, _ => if dec_is_integral d && dec_abs_lt_1e10 d then fmtF0 d else fmtG d
  | .string s, _, _ => 34 :: (truncNul s ++ [34])
  | .array items, indent, pretty =>
    [91] ++ (if pretty && ¬ items.isEmpty then [10] else [])
      ++ print_array_items items indent pretty
      ++ (if pretty && ¬ items.isEmpty then json_print_indent indent else []) ++ [93]
  | .object pairs, indent, pretty =>
    [123] ++ (if pretty && ¬ pairs.isEmpty then [10] else [])
      ++ print_object_items pairs indent pretty
      ++ (if pretty && ¬ pairs.isEmpty then json_print_indent indent else []) ++ [125]

/-- The element loop of the array case of `json_print_value`. -/
def print_array_items : List JsonValue → Nat → Bool → List Nat
  | [], _, _ => []
  | v :: rest, indent, pretty =>
    (if pretty then json_print_indent (indent + 1) else [])
      ++ json_print_value v (indent + 1) pretty
      ++ (if rest.isEmpty then [] else [44])
      ++ (if pretty then [10] else [])
      ++ print_array_items rest indent pretty

/-- The pair loop of the object case of `json_print_value`. -/
def print_object_items : List (List Nat × JsonValue) → Nat → Bool → List Nat
  | [], _, _ => []
  | (k, v) :: rest, indent, pretty =>
    (if pretty then json_print_indent (indent + 1) else [])
      ++ (34 :: (truncNul k ++ [34, 58]))
      ++ (if pretty then [32] else [])
      ++ json_print_value v (indent + 1) pretty
      ++ (if rest.isEmpty then [] else [44])
      ++ (if pretty then [10] else [])
      ++ print_object_items rest indent pretty

end

/-- Compact serialization, `json_print_value(file, v, 0, false)`. -/
def printCompact (v : JsonValue) : List Nat := json_print_value v 0 false

/-- `json_get_array_item`: absent on NULL receiver, non-array receiver, or
out-of-range index. -/
def json_get_array_item (v : Option JsonValue) (index : Nat) : Option JsonValue :=
  match v with
  | some (.array items) => items.get? index
  | _ => none

/-- The linear first-match scan of `json_get_object_value` (`strcmp` key
comparison). -/
def obj_lookup : List (List Nat × JsonValue) → List Nat → Option JsonValue
  | [], _ => none
  | (k0, v0) :: rest, k => if c_str_eq k0 k then some v0 else obj_lookup rest k

/-- `json_get_object_value`: absent on NULL receiver, non-object receiver,
or NULL key; otherwise first-match lookup in insertion order. -/
def json_get_object_value (v : Option JsonValue) (key : Option (List Nat)) : Option JsonValue :=
  match v, key with
  | some (.object pairs), some k => obj_lookup pairs k
  | _, _ => none

/-- `true` exactly on array nodes. -/
def isArrayB : JsonValue → Bool
  | .array _ => true
  | _ => false

/-- `true` exactly on object nodes. -/
def isObjectB : JsonValue → Bool
  | .object _ => true
  | _ => false

/-- C5: parsing an object with duplicate keys retains every pair in
insertion order, and `json_get_object_value` returns the value of the first
matching pair: `{"a":1,"a":2}` yields an object with two pairs and lookup
of `"a"` returns the number 1; in general the first pair always wins. -/
theorem c5_duplicate_keys_first_match (k : List Nat) (v : JsonValue)
    (ps : List (List Nat × JsonValue)) :
    json_parse false (some [123, 34, 97, 34, 58, 49, 44, 34, 97, 34, 58, 50, 125]) =
      (some (.object [([97], .number (mkDec 1 0)), ([97], .number (mkDec 2 0))]), []) ∧
    json_get_object_value
      (some (.object [([97], .number (mkDec 1 0)), ([97], .number (mkDec 2 0))]))
      (some [97]) = some (.number (mkDec 1 0)) ∧
    json_get_object_value (some (.object ((k, v) :: ps))) (some k) = some v := by
  refine ⟨rfl, rfl, ?_⟩
  simp [json_get_object_value, obj_lookup, c_str_eq]

/-- Witness for C5 at the concrete duplicate-key object of the claim. -/
theorem c5_witness :
    json_get_object_value (some (.object [([97], .number (mkDec 1 0)),
      ([97], .number (mkDec 2 0))])) (some [97]) = some (.number (mkDec 1 0)) :=
  (c5_duplicate_keys_first_match [97] (.number (mkDec 1 0)) [([97], .number (mkDec 2 0))]).2.1

/-- C7: the number grammar rejects a leading zero followed by further
digits (`01` fails with the spec's `InvalidNumberFormat` class), while `0`
parses as the number 0 and `-0.5e2` parses as the number -50. -/
theorem c7_number_grammar :
    json_parse false (some [48, 49]) = (none, [.leadingZeros]) ∧
    numberErrB .leadingZeros = true ∧
    json_parse false (some [48]) = (some (.number (mkDec 0 0)), []) ∧
    json_parse false (some [45, 48, 46, 53, 101, 50]) = (some (.number (mkDec (-50) 0)), []) :=
  ⟨rfl, rfl, rfl, rfl⟩

/-- The 66-byte input of the C4 failing run: sixty-three `1` digits
followed by `e+1`. -/
def c4_input : List Nat := List.replicate 63 49 ++ [101, 43, 49]

/-- C4: running `parse_number` on a 63-digit integer part followed by
`e+`, the unguarded exponent-sign write lands at index 64 of the 64-byte
token buffer — one byte past the end — before the parse fails with the
`Number too large` diagnostic (spec class `InvalidNumberFormat`). -/
theorem c4_number_buffer_overflow :
    (parse_number_core (initParser false c4_input)).1 = none ∧
    (parse_number_core (initParser false c4_input)).2.1.error = .numberTooLarge ∧
    numberErrB .numberTooLarge = true ∧
    (parse_number_core (initParser false c4_input)).2.2.any (fun i => 64 ≤ i) = true :=
  ⟨rfl, rfl, rfl, rfl⟩

/-- C2 counterexample: a failing `parse_array` call (input `[1`, which ends
before the element list is closed) returns with the shared depth counter
still incremented — depth 1 from an entry depth of 0 — because the C code
only decrements on success paths. -/
theorem c2_counterexample :
    (parse_array 10 (initParser false [91, 49])).1 = none ∧
    (initParser false [91, 49]).depth = 0 ∧
    (parse_array 10 (initParser false [91, 49])).2.depth = 1 :=
  ⟨rfl, rfl, rfl⟩

/-- C3 counterexample: with ambient `errno = ERANGE` (never cleared by
`parse_number` before it reads `errno` after `strtod`), parsing the buffer
`1` fails with `InvalidNumberFormat` and prints a diagnostic to stderr,
while the same buffer parses successfully with clear ambient `errno` — the
result is not a function of the buffer alone. -/
theorem c3_counterexample :
    json_parse true (some [49]) = (none, [.invalidNumberFormat]) ∧
    json_parse false (some [49]) = (some (.number (mkDec 1 0)), []) ∧
    json_parse true (some [49]) ≠ json_parse false (some [49]) := by
  refine ⟨rfl, rfl, fun h => absurd (congrArg Prod.snd h) (by decide)⟩

/-- C3 amended: `json_parse` prints a stderr diagnostic exactly when it
fails (for a non-NULL buffer): the result is `some` iff the stderr trace is
empty. -/
theorem c3_amended_stderr_iff_failure (e : Bool) (l : List Nat) :
    ((json_parse e (some l)).1.isSome = true) ↔ (json_parse e (some l)).2 = [] := by
  unfold json_parse
  rcases h : parse_value (initFuel l) (initParser e l) with ⟨ov, p1⟩
  rcases ov with _ | v
  · simp [h]
  · rcases h2 : (skip_whitespace p1).rest with _ | ⟨c, r⟩ <;> simp [h, h2]

/-- Witness for the C3 amended theorem at the buffer `1` with clear
ambient errno. -/
theorem c3_amended_witness :
    ((json_parse false (some [49])).1.isSome = true) ↔ (json_parse false (some [49])).2 = [] :=
  c3_amended_stderr_iff_failure false [49]

/-- C1 counterexample: the string `"\""` parses to the one-byte string
`"`, whose compact print `"""` does not re-parse to the same tree (it
fails with trailing data, since `json_print_value` emits strings without
escaping); and `1234567.5` re-parses — through the six-significant-digit
`%g` format — to the different number `1234570`. -/
theorem c1_counterexample :
    json_parse false (some [34, 92, 34, 34]) = (some (.string [34]), []) ∧
    json_parse false (some (printCompact (.string [34]))) = (none, [.trailingDataAfterValue]) ∧
    json_parse false (some [49, 50, 51, 52, 53, 54, 55, 46, 53]) =
      (some (.number (mkDec 12345675 (-1))), []) ∧
    json_parse false (some (printCompact (.number (mkDec 12345675 (-1))))) =
      (some (.number (mkDec 123457 1)), []) ∧
    (JsonValue.number (mkDec 123457 1)) ≠ (JsonValue.number (mkDec 12345675 (-1))) := by
  refine ⟨rfl, rfl, rfl, rfl, ?_⟩
  simp [mkDec, stripAux]

/-- C10: the public read operations are total on degenerate inputs —
absent (not an error) for NULL receivers, wrong-type receivers, NULL keys,
out-of-range indices; and `json_parse` on a NULL buffer returns failure
(with no output) rather than misbehaving. -/
theorem c10_accessor_totality :
    (∀ i, json_get_array_item none i = none) ∧
    (∀ v i, isArrayB v = false → json_get_array_item (some v) i = none) ∧
    (∀ items i, items.length ≤ i → json_get_array_item (some (.array items)) i = none) ∧
    (∀ k, json_get_object_value none k = none) ∧
    (∀ v, json_get_object_value (some v) none = none) ∧
    (∀ v k, isObjectB v = false → json_get_object_value (some v) (some k) = none) ∧
    (∀ e, json_parse e none = (none, [])) := by
  refine ⟨fun i => rfl, ?_, ?_, fun k => rfl, ?_, ?_, fun e => rfl⟩
  · intro v i h
    cases v <;> simp_all [json_get_array_item, isArrayB]
  · intro items i h
    simp only [json_get_array_item]
    exact List.get?_eq_none.2 h
  · intro v
    cases v <;> rfl
  · intro v k h
    cases v <;> simp_all [json_get_object_value, isObjectB]

/-- Witness for C10 at concrete degenerate inputs. -/
theorem c10_witness :
    json_get_array_item (some (.boolean true)) 0 = none ∧
    json_get_array_item (some (.array [])) 3 = none ∧
    json_get_object_value (some (.number (mkDec 1 0))) (some [97]) = none :=
  ⟨(c10_accessor_totality).2.1 (.boolean true) 0 rfl,
   (c10_accessor_totality).2.2.1 [] 3 (by simp),
   (c10_accessor_totality).2.2.2.2.2.1 (.number (mkDec 1 0)) [97] rfl⟩

/-- C8: whenever `parse_value` succeeds on the top-level input but
non-whitespace content remains after the value, `json_parse` fails with
`TrailingDataAfterValue` (and prints only that diagnostic). -/
theorem c8_trailing_data (e : Bool) (l : List Nat) (v : JsonValue) (p1 : Parser)
    (h : parse_value (initFuel l) (initParser e l) = (some v, p1))
    (h2 : (skip_whitespace p1).rest ≠ []) :
    json_parse e (some l) = (none, [.trailingDataAfterValue]) := by
  simp only [json_parse, h]
  rcases h3 : (skip_whitespace p1).rest with _ | ⟨c, r⟩
  · exact absurd h3 h2
  · simp [h3]

/-- The bytes of `{} garbage`. -/
def c8_input : List Nat := [123, 125, 32, 103, 97, 114, 98, 97, 103, 101]

/-- Witness for C8 at the claim's concrete input `{} garbage`. -/
theorem c8_witness :
    json_parse false (some c8_input) = (none, [.trailingDataAfterValue]) :=
  c8_trailing_data false c8_input (.object [])
    ⟨[32, 103, 97, 114, 98, 97, 103, 101], 1, 3, .noError, 0, false⟩ rfl (by decide)

theorem skip_whitespace_depth (p : Parser) : (skip_whitespace p).depth = p.depth := by
  rcases p with ⟨rest, line, col, err, dep, ern⟩
  simp only [skip_whitespace]

theorem peek_char_depth (p : Parser) (c : Nat) : ((peek_char p c).2).depth = p.depth := by
  have hd := skip_whitespace_depth p
  simp only [peek_char]
  rcases h : skip_whitespace p with ⟨rest, line, col, err, dep, ern⟩
  rw [h] at hd
  rcases rest with _ | ⟨b, r⟩
  · exact hd
  · exact hd

theorem consume_char_depth (p : Parser) (c : Nat) : ((consume_char p c).2).depth = p.depth := by
  have hd := skip_whitespace_depth p
  simp only [consume_char]
  rcases h : skip_whitespace p with ⟨rest, line, col, err, dep, ern⟩
  rw [h] at hd
  rcases rest with _ | ⟨b, r⟩
  · exact hd
  · dsimp only
    split
    · exact hd
    · exact hd

theorem parse_null_depth (p : Parser) : ((parse_null p).2).depth = p.depth := by
  simp only [parse_null]
  split <;> rfl

theorem parse_boolean_depth (p : Parser) : ((parse_boolean p).2).depth = p.depth := by
  simp only [parse_boolean]
  split
  · rfl
  · split <;> rfl

theorem num_digits_loop_depth (p : Parser) (a : NumAcc) :
    ((num_digits_loop p a).2.1).depth = p.depth := by
  simp only [num_digits_loop]
  rcases h : num_digits_go p.rest p.column a with ⟨b, r, col, a'⟩
  cases b <;> simp [errSet]

theorem pn_int_depth (p : Parser) (a : NumAcc) : ((pn_int p a).2.1).depth = p.depth := by
  rcases p with ⟨rest, line, col, err, dep, ern⟩
  simp only [pn_int]
  rcases rest with _ | ⟨c, r⟩
  · rfl
  · dsimp only
    split
    · rfl
    · split
      · rcases r with _ | ⟨d, r2⟩
        · rfl
        · dsimp only
          split <;> rfl
      · exact num_digits_loop_depth _ a

theorem pn_frac_depth (p : Parser) (a : NumAcc) : ((pn_frac p a).2.1).depth = p.depth := by
  rcases p with ⟨rest, line, col, err, dep, ern⟩
  simp only [pn_frac]
  rcases rest with _ | ⟨c, r⟩
  · rfl
  · dsimp only
    split
    · rcases r with _ | ⟨d, r2⟩
      · rfl
      · dsimp only
        split
        · rfl
        · exact num_digits_loop_depth _ _
    · rfl

theorem pn_exp_digits_depth (p : Parser) (a : NumAcc) :
    ((pn_exp_digits p a).2.1).depth = p.depth := by
  rcases p with ⟨rest, line, col, err, dep, ern⟩
  simp only [pn_exp_digits]
  rcases rest with _ | ⟨d, r⟩
  · rfl
  · dsimp only
    split
    · rfl
    · exact num_digits_loop_depth _ _

theorem pn_exp_depth (p : Parser) (a : NumAcc) : ((pn_exp p a).2.1).depth = p.depth := by
  rcases p with ⟨rest, line, col, err, dep, ern⟩
  simp only [pn_exp]
  rcases rest with _ | ⟨c, r⟩
  · rfl
  · dsimp only
    split
    · rcases r with _ | ⟨s, r2⟩
      · rfl
      · dsimp only
        split
        · exact pn_exp_digits_depth _ _
        · exact pn_exp_digits_depth _ _
    · rfl

theorem pn_finish_depth (p : Parser) (a : NumAcc) : ((pn_finish p a).2.1).depth = p.depth := by
  simp only [pn_finish]
  split <;> rfl

theorem pn_after_frac_depth (p : Parser) (a : NumAcc) :
    ((pn_after_frac p a).2.1).depth = p.depth := by
  simp only [pn_after_frac]
  rcases h : pn_exp p a with ⟨b, p3, a3⟩
  have hd := pn_exp_depth p a
  rw [h] at hd
  cases b
  · exact hd
  · rw [show ((pn_finish p3 a3).2.1).depth = p3.depth from pn_finish_depth p3 a3]
    exact hd

theorem pn_after_int_depth (p : Parser) (a : NumAcc) :
    ((pn_after_int p a).2.1).depth = p.depth := by
  simp only [pn_after_int]
  rcases h : pn_frac p a with ⟨b, p2, a2⟩
  have hd := pn_frac_depth p a
  rw [h] at hd
  cases b
  · exact hd
  · rw [show ((pn_after_frac p2 a2).2.1).depth = p2.depth from pn_after_frac_depth p2 a2]
    exact hd

theorem pn_after_sign_depth (p : Parser) (a : NumAcc) :
    ((pn_after_sign p a).2.1).depth = p.depth := by
  simp only [pn_after_sign]
  rcases h : pn_int p a with ⟨b, p1, a1⟩
  have hd := pn_int_depth p a
  rw [h] at hd
  cases b
  · exact hd
  · rw [show ((pn_after_int p1 a1).2.1).depth = p1.depth from pn_after_int_depth p1 a1]
    exact hd

theorem parse_number_core_depth (p : Parser) : ((parse_number_core p).2.1).depth = p.depth := by
  rcases p with ⟨rest, line, col, err, dep, ern⟩
  simp only [parse_number_core]
  rcases rest with _ | ⟨c, r⟩
  · exact pn_after_sign_depth _ _
  · dsimp only
    split
    · exact pn_after_sign_depth _ _
    · exact pn_after_sign_depth _ _

theorem parse_number_depth (p : Parser) : ((parse_number p).2).depth = p.depth := by
  simp only [parse_number]
  rcases h : parse_number_core p with ⟨od, p', tr⟩
  have hd := parse_number_core_depth p
  rw [h] at hd
  cases od
  · exact hd
  · exact hd

theorem string_scan_depth (p : Parser) (buf : List Nat) :
    ((string_scan p buf).2).depth = p.depth := by
  simp only [string_scan]
  rcases h : string_scan_go p.rest p.column buf with ⟨st, r, col⟩
  cases st <;> simp [errSet]

theorem parse_string_depth (p : Parser) : ((parse_string p).2).depth = p.depth := by
  simp only [parse_string]
  rcases h : consume_char p 34 with ⟨b, p'⟩
  have d1 := consume_char_depth p 34
  rw [h] at d1
  cases b
  · exact d1
  · rcases h2 : string_scan p' [] with ⟨os, p''⟩
    have d2 := string_scan_depth p' []
    rw [h2] at d2
    dsimp only
    rw [h2]
    cases os
    · dsimp only at d1 d2 ⊢; omega
    · dsimp only at d1 d2 ⊢; omega

/-- Master success-path depth preservation: whenever any of the mutually
recursive container parsers returns a value, the shared depth counter is
back at its entry value (the failure paths are exactly where the C code
skips the decrement). -/
theorem depth_master (fuel : Nat) :
    (∀ p v p', parse_value fuel p = (some v, p') → p'.depth = p.depth) ∧
    (∀ p v p', parse_array fuel p = (some v, p') → p'.depth = p.depth) ∧
    (∀ p v p', parse_object fuel p = (some v, p') → p'.depth = p.depth) ∧
    (∀ p acc items p', parse_array_items fuel p acc = (some items, p') → p'.depth = p.depth) ∧
    (∀ p acc prs p', parse_object_items fuel p acc = (some prs, p') → p'.depth = p.depth) := by
  induction fuel with
  | zero =>
    refine ⟨?_, ?_, ?_, ?_, ?_⟩
    · intro p v p' h; simp [parse_value, errSet] at h
    · intro p v p' h; simp [parse_array, errSet] at h
    · intro p v p' h; simp [parse_object, errSet] at h
    · intro p acc items p' h; simp [parse_array_items, errSet] at h
    · intro p acc prs p' h; simp [parse_object_items, errSet] at h
  | succ fuel ih =>
    obtain ⟨ihv, iha, iho, ihia, ihio⟩ := ih
    have hval : ∀ p v p', parse_value (fuel + 1) p = (some v, p') → p'.depth = p.depth := by
      intro p v p' h
      simp only [parse_value] at h
      rcases hsw : skip_whitespace p with ⟨rest, line, col, err, dep, ern⟩
      have hdep := skip_whitespace_depth p
      rw [hsw] at hdep h
      dsimp only at hdep
      rcases rest with _ | ⟨c, r⟩
      · simp at h
      · dsimp only at h
        split_ifs at h
        · have hx := parse_null_depth ⟨c :: r, line, col, err, dep, ern⟩
          rw [h] at hx; dsimp at hx ⊢; omega
        · have hx := parse_boolean_depth ⟨c :: r, line, col, err, dep, ern⟩
          rw [h] at hx; dsimp at hx ⊢; omega
        · have hx := parse_string_depth ⟨c :: r, line, col, err, dep, ern⟩
          rw [h] at hx; dsimp at hx ⊢; omega
        · have hx := iha _ _ _ h
          dsimp at hx ⊢; omega
        · have hx := iho _ _ _ h
          dsimp at hx ⊢; omega
        · have hx := parse_number_depth ⟨c :: r, line, col, err, dep, ern⟩
          rw [h] at hx; dsimp at hx ⊢; omega
        · simp at h
    refine ⟨hval, ?_, ?_, ?_, ?_⟩
    · -- parse_array
      intro p v p' h
      simp only [parse_array] at h
      rcases hc : consume_char p 91 with ⟨b, p1⟩
      have hd1 := consume_char_depth p 91
      rw [hc] at hd1 h
      dsimp only at hd1
      cases b
      · simp at h
      · dsimp only at h
        split_ifs at h with hD
        · simp [errSet] at h
        · rcases hp : peek_char (skip_whitespace { p1 with depth := p1.depth + 1 }) 93
            with ⟨pb, p4⟩
          have hd4 : p4.depth = p1.depth + 1 := by
            have a1 := peek_char_depth (skip_whitespace { p1 with depth := p1.depth + 1 }) 93
            rw [hp] at a1
            have a2 := skip_whitespace_depth { p1 with depth := p1.depth + 1 }
            dsimp at a1 a2; omega
          rw [hp] at h
          cases pb
          · dsimp only at h
            rcases hi : parse_array_items fuel p4 [] with ⟨oi, p5⟩
            rw [hi] at h
            cases oi
            · simp at h
            · dsimp only at h
              have hd5 := ihia p4 [] _ _ hi
              injection h with h1 h2
              rw [← h2]; dsimp; omega
          · dsimp only at h
            rcases hcc : consume_char p4 93 with ⟨b2, p5⟩
            have hd5 := consume_char_depth p4 93
            rw [hcc] at hd5 h
            dsimp only at hd5 h
            injection h with h1 h2
            rw [← h2]; dsimp; omega
    · -- parse_object
      intro p v p' h
      simp only [parse_object] at h
      rcases hc : consume_char p 123 with ⟨b, p1⟩
      have hd1 := consume_char_depth p 123
      rw [hc] at hd1 h
      dsimp only at hd1
      cases b
      · simp at h
      · dsimp only at h
        split_ifs at h with hD
        · simp [errSet] at h
        · rcases hp : peek_char (skip_whitespace { p1 with depth := p1.depth + 1 }) 125
            with ⟨pb, p4⟩
          have hd4 : p4.depth = p1.depth + 1 := by
            have a1 := peek_char_depth (skip_whitespace { p1 with depth := p1.depth + 1 }) 125
            rw [hp] at a1
            have a2 := skip_whitespace_depth { p1 with depth := p1.depth + 1 }
            dsimp at a1 a2; omega
          rw [hp] at h
          cases pb
          · dsimp only at h
            rcases hi : parse_object_items fuel p4 [] with ⟨oi, p5⟩
            rw [hi] at h
            cases oi
            · simp at h
            · dsimp only at h
              have hd5 := ihio p4 [] _ _ hi
              injection h with h1 h2
              rw [← h2]; dsimp; omega
          · dsimp only at h
            rcases hcc : consume_char p4 125 with ⟨b2, p5⟩
            have hd5 := consume_char_depth p4 125
            rw [hcc] at hd5 h
            dsimp only at hd5 h
            injection h with h1 h2
            rw [← h2]; dsimp; omega
    · -- parse_array_items
      intro p acc items p' h
      simp only [parse_array_items] at h
      rcases hv : parse_value fuel p with ⟨ov, p1⟩
      rw [hv] at h
      cases ov
      · simp at h
      · dsimp only at h
        have hd1 := ihv p _ _ hv
        rcases hp : peek_char (skip_whitespace p1) 93 with ⟨pb, p3⟩
        have hd3 : p3.depth = p1.depth := by
          have a1 := peek_char_depth (skip_whitespace p1) 93
          rw [hp] at a1
          have a2 := skip_whitespace_depth p1
          dsimp at a1; omega
        rw [hp] at h
        cases pb
        · dsimp only at h
          rcases hcc : consume_char p3 44 with ⟨b2, p4⟩
          have hd4 := consume_char_depth p3 44
          rw [hcc] at hd4 h
          dsimp only at hd4
          cases b2
          · simp at h
          · dsimp only at h
            have := ihia p4 _ _ _ h
            omega
        · dsimp only at h
          injection h with h1 h2
          rw [← h2]
          have := consume_char_depth p3 93
          omega
    · -- parse_object_items
      intro p acc prs p' h
      simp only [parse_object_items] at h
      rcases hs : parse_string p with ⟨os, p1⟩
      have hd1 := parse_string_depth p
      rw [hs] at hd1 h
      dsimp only at hd1
      cases os
      · simp [errSet] at h
      case some kv =>
        dsimp only at h
        rcases kv with _ | b | d | key | iarr | iobj
        case string =>
          rcases hc2 : consume_char p1 58 with ⟨b2, p2⟩
          have hd2 := consume_char_depth p1 58
          rw [hc2] at hd2 h
          dsimp only at hd2
          cases b2
          · simp at h
          · dsimp only at h
            rcases hv : parse_value fuel p2 with ⟨ov, p3⟩
            rw [hv] at h
            cases ov
            · simp at h
            · dsimp only at h
              have hd3 := ihv p2 _ _ hv
              rcases hp : peek_char (skip_whitespace p3) 125 with ⟨pb, p4⟩
              have hd4 : p4.depth = p3.depth := by
                have a1 := peek_char_depth (skip_whitespace p3) 125
                rw [hp] at a1
                have a2 := skip_whitespace_depth p3
                dsimp at a1; omega
              rw [hp] at h
              cases pb
              · dsimp only at h
                rcases hcc : consume_char p4 44 with ⟨b3, p5⟩
                have hd5 := consume_char_depth p4 44
                rw [hcc] at hd5 h
                dsimp only at hd5
                cases b3
                · simp at h
                · dsimp only at h
                  have := ihio p5 _ _ _ h
                  omega
              · dsimp only at h
                injection h with h1 h2
                rw [← h2]
                have := consume_char_depth p4 125
                omega
        all_goals simp [errSet] at h

/-- C2 amended: on every successful return of the array or object parser
the shared depth counter equals its value on entry; on failure paths the C
code returns without the decrement (see the counterexample), which is
unobservable because any failure aborts the entire parse. -/
theorem c2_amended_success_restores_depth (fuel : Nat) (p : Parser) (v : JsonValue)
    (p' : Parser) :
    (parse_array fuel p = (some v, p') → p'.depth = p.depth) ∧
    (parse_object fuel p = (some v, p') → p'.depth = p.depth) :=
  ⟨fun h => (depth_master fuel).2.1 p v p' h,
   fun h => (depth_master fuel).2.2.1 p v p' h⟩

/-- Witness for the C2 amended theorem: a successful `parse_array` run on
`[]` from depth 0 returns at depth 0. -/
theorem c2_amended_witness :
    (⟨[], 1, 3, .noError, 0, false⟩ : Parser).depth = (initParser false [91, 93]).depth :=
  (c2_amended_success_restores_depth 10 (initParser false [91, 93]) (.array [])
    ⟨[], 1, 3, .noError, 0, false⟩).1 rfl

/-- C9: inside a string literal, `\u` followed by four bytes either (all
four hex) decodes to the UTF-8 encoding — 1, 2 or 3 bytes by magnitude —
of the accumulated 16-bit code point, or (any of the four non-hex, in C
scan order) fails the whole parse with `InvalidHexDigit`. -/
theorem c9_unicode_escape (a b c d : Nat) :
    (¬ parse_hex_digit a < 0 → ¬ parse_hex_digit b < 0 → ¬ parse_hex_digit c < 0 →
      ¬ parse_hex_digit d < 0 →
      json_parse false (some [34, 92, 117, a, b, c, d, 34]) =
        (some (.string (utf8enc ((((((parse_hex_digit a).toNat <<< 4) |||
          (parse_hex_digit b).toNat) <<< 4) ||| (parse_hex_digit c).toNat) <<< 4 |||
          (parse_hex_digit d).toNat))), [])) ∧
    ((parse_hex_digit a < 0 ∨ parse_hex_digit b < 0 ∨ parse_hex_digit c < 0 ∨
      parse_hex_digit d < 0) →
      json_parse false (some [34, 92, 117, a, b, c, d, 34]) = (none, [.invalidHexDigit])) ∧
    (∀ cp : Nat, (cp < 128 → (utf8enc cp).length = 1) ∧
      (128 ≤ cp → cp < 2048 → (utf8enc cp).length = 2) ∧
      (2048 ≤ cp → (utf8enc cp).length = 3)) := by
  refine ⟨?_, ?_, ?_⟩
  · intro h1 h2 h3 h4
    simp [json_parse, initFuel, initParser, parse_value, parse_string, consume_char,
      skip_whitespace, skip_whitespace_aux, isWsB, isDigitB, string_scan, string_scan_go,
      h1, h2, h3, h4, errSet]
  · intro h
    by_cases ha : parse_hex_digit a < 0
    · simp [json_parse, initFuel, initParser, parse_value, parse_string, consume_char,
        skip_whitespace, skip_whitespace_aux, isWsB, isDigitB, string_scan, string_scan_go,
        ha, errSet]
    · by_cases hb : parse_hex_digit b < 0
      · simp [json_parse, initFuel, initParser, parse_value, parse_string, consume_char,
          skip_whitespace, skip_whitespace_aux, isWsB, isDigitB, string_scan, string_scan_go,
          ha, hb, errSet]
      · by_cases hc : parse_hex_digit c < 0
        · simp [json_parse, initFuel, initParser, parse_value, parse_string, consume_char,
            skip_whitespace, skip_whitespace_aux, isWsB, isDigitB, string_scan, string_scan_go,
            ha, hb, hc, errSet]
        · by_cases hd : parse_hex_digit d < 0
          · simp [json_parse, initFuel, initParser, parse_value, parse_string, consume_char,
              skip_whitespace, skip_whitespace_aux, isWsB, isDigitB, string_scan,
              string_scan_go, ha, hb, hc, hd, errSet]
          · rcases h with h | h | h | h <;> contradiction
  · intro cp
    refine ⟨fun h => ?_, fun h1 h2 => ?_, fun h => ?_⟩
    · simp [utf8enc, h]
    · simp [utf8enc, h2, Nat.not_lt.2 h1]
    · simp [utf8enc, Nat.not_lt.2 (by omega : 128 ≤ cp), Nat.not_lt.2 h]

/-- Witness for C9 at the claim's concrete escape `é`: the decoded
string is exactly the two bytes `0xC3 0xA9`. -/
theorem c9_witness :
    json_parse false (some [34, 92, 117, 48, 48, 101, 57, 34]) =
      (some (.string [195, 169]), []) :=
  (c9_unicode_escape 48 48 101 57).1 (by decide) (by decide) (by decide) (by decide)

mutual

/-- Container nesting height of a tree (leaves are 0). -/
def heightV : JsonValue → Nat
  | .null => 0
  | .boolean _ => 0
  | .number _ => 0
  | .string _ => 0
  | .array items => 1 + heightL items
  | .object pairs => 1 + heightP pairs

def heightL : List JsonValue → Nat
  | [] => 0
  | v :: r => max (heightV v) (heightL r)

def heightP : List (List Nat × JsonValue) → Nat
  | [] => 0
  | kv :: r => max (heightV kv.2) (heightP r)

end

/-- A string (or key) whose compact print re-parses verbatim: within the
scan buffer bound, and containing no byte that the unescaping printer
would need to escape (nothing below 0x20, no `"`, no `\`). -/
def plainStrB (s : List Nat) : Bool :=
  s.length ≤ 2097151 && s.all (fun b => 32 ≤ b && b ≠ 34 && b ≠ 92)

/-- A number whose `%.0f` print re-parses to the same value: canonical
(zero is `⟨0, 0⟩`, otherwise the mantissa has no trailing zero — which is
how the parser itself builds every `Dec`), integral, and below `1e10` in
magnitude. -/
def goodNumB (d : Dec) : Bool :=
  (d.m = 0 && d.e = 0) ||
    (d.m % 10 ≠ 0 && 0 ≤ d.e && d.e ≤ 10 && d.m.natAbs * 10 ^ d.e.toNat < 10 ^ 10)

mutual

/-- Trees whose compact print re-parses to the same tree: every string and
key plain, every number good (see the C1 counterexample for why escapes
and `%g`-range numbers are excluded). -/
def GoodB : JsonValue → Bool
  | .null => true
  | .boolean _ => true
  | .number d => goodNumB d
  | .string s => plainStrB s
  | .array items => GoodL items
  | .object pairs => GoodP pairs

def GoodL : List JsonValue → Bool
  | [] => true
  | v :: r => GoodB v && GoodL r

def GoodP : List (List Nat × JsonValue) → Bool
  | [] => true
  | kv :: r => plainStrB kv.1 && GoodB kv.2 && GoodP r

end

/-- Bytes that would extend a numeric token (digits, `.`, `e`, `E`). -/
def numContB (c : Nat) : Bool := isDigitB c || c = 46 || c = 101 || c = 69

/-- The separation condition under which a printed number is read back
whole: whatever follows it must not extend the token.  Inside printed
containers the following byte is always `,`, `]` or `}`. -/
def numSepB : JsonValue → List Nat → Bool
  | .number _, c :: _ => ¬ numContB c
  | _, _ => true

theorem dcAux_spec : ∀ f x, x < 10 ^ f → x < 10 ^ (dcAux f x) := by
  intro f
  induction f with
  | zero => intro x h; simpa [dcAux] using h
  | succ f ih =>
    intro x h
    by_cases h0 : x = 0
    · simp [dcAux, h0]
    · have hd : x / 10 < 10 ^ f := by
        rw [Nat.div_lt_iff_lt_mul (by omega : 0 < 10)]
        calc x < 10 ^ (f + 1) := h
          _ = 10 ^ f * 10 := by ring
      have hx := ih (x / 10) hd
      simp only [dcAux, h0, if_false]
      calc x ≤ 10 * (x / 10) + 9 := by omega
        _ < 10 * 10 ^ (dcAux f (x / 10)) := by omega
        _ = 10 ^ (dcAux f (x / 10) + 1) := by ring

theorem dcAux_le : ∀ f n k, n < 10 ^ k → dcAux f n ≤ k := by
  intro f
  induction f with
  | zero => intro n k _; simp [dcAux]
  | succ f ih =>
    intro n k h
    by_cases h0 : n = 0
    · simp [dcAux, h0]
    · have hk : k ≠ 0 := by
        intro hk0
        rw [hk0] at h
        simp at h
        omega
      simp only [dcAux, h0, if_false]
      have : n / 10 < 10 ^ (k - 1) := by
        rw [Nat.div_lt_iff_lt_mul (by omega : 0 < 10)]
        calc n < 10 ^ k := h
          _ = 10 ^ (k - 1) * 10 := by
            rw [← pow_succ]
            congr 1
            omega
      have := ih (n / 10) (k - 1) this
      omega

theorem dcAux_pos (f n : Nat) (h : n ≠ 0) : 1 ≤ dcAux (f + 1) n := by
  simp [dcAux, h]

theorem digitsVal_append_single (l : List Nat) (b : Nat) :
    digitsVal (l ++ [b]) = 10 * digitsVal l + (b - 48) := by
  simp [digitsVal, List.foldl_append]
  ring

theorem natDecimalAux_val : ∀ f n, n < 10 ^ f → digitsVal (natDecimalAux f n) = n := by
  intro f
  induction f with
  | zero => intro n h; interval_cases n; simp [natDecimalAux, digitsVal]
  | succ f ih =>
    intro n h
    by_cases h0 : n = 0
    · simp [natDecimalAux, h0, digitsVal]
    · have hd : n / 10 < 10 ^ f := by
        rw [Nat.div_lt_iff_lt_mul (by omega : 0 < 10)]
        calc n < 10 ^ (f + 1) := h
          _ = 10 ^ f * 10 := by ring
      simp only [natDecimalAux, h0, if_false]
      rw [digitsVal_append_single, ih (n / 10) hd]
      omega

theorem natDecimalAux_len : ∀ f n k, n < 10 ^ k → k ≤ f → (natDecimalAux f n).length ≤ k := by
  intro f
  induction f with
  | zero => intro n k _ _; simp [natDecimalAux]
  | succ f ih =>
    intro n k h hk
    by_cases h0 : n = 0
    · simp [natDecimalAux, h0]
    · have hkne : k ≠ 0 := by
        intro hk0; rw [hk0] at h; simp at h; omega
      simp only [natDecimalAux, h0, if_false, List.length_append, List.length_singleton]
      have hd : n / 10 < 10 ^ (k - 1) := by
        rw [Nat.div_lt_iff_lt_mul (by omega : 0 < 10)]
        calc n < 10 ^ k := h
          _ = 10 ^ (k - 1) * 10 := by
            rw [← pow_succ]; congr 1; omega
      have := ih (n / 10) (k - 1) hd (by omega)
      omega

theorem natDecimalAux_digits : ∀ f n b, b ∈ natDecimalAux f n → 48 ≤ b ∧ b ≤ 57 := by
  intro f
  induction f with
  | zero => intro n b h; simp [natDecimalAux] at h
  | succ f ih =>
    intro n b h
    by_cases h0 : n = 0
    · simp [natDecimalAux, h0] at h
    · simp only [natDecimalAux, h0, if_false, List.mem_append, List.mem_singleton] at h
      rcases h with h | h
      · exact ih (n / 10) b h
      · have : n % 10 < 10 := Nat.mod_lt _ (by omega)
        omega

theorem natDecimalAux_zero : ∀ f, natDecimalAux f 0 = [] := by
  intro f; cases f <;> simp [natDecimalAux]

theorem natDecimalAux_head : ∀ f n, n ≠ 0 → n < 10 ^ f →
    ∃ h t, natDecimalAux f n = h :: t ∧ 49 ≤ h ∧ h ≤ 57 := by
  intro f
  induction f with
  | zero => intro n h0 h; omega
  | succ f ih =>
    intro n h0 h
    simp only [natDecimalAux, h0, if_false]
    by_cases hq : n / 10 = 0
    · refine ⟨n % 10 + 48, [], ?_, ?_, ?_⟩
      · simp [natDecimalAux, hq, natDecimalAux_zero]
      · have : n % 10 ≠ 0 := by omega
        omega
      · have : n % 10 < 10 := Nat.mod_lt _ (by omega)
        omega
    · have hd : n / 10 < 10 ^ f := by
        rw [Nat.div_lt_iff_lt_mul (by omega : 0 < 10)]
        calc n < 10 ^ (f + 1) := h
          _ = 10 ^ f * 10 := by ring
      obtain ⟨hh, t, heq, hge, hle⟩ := ih (n / 10) hq hd
      exact ⟨hh, t ++ [n % 10 + 48], by rw [heq]; rfl, hge, hle⟩

theorem natDecimal_val (n : Nat) (h : n < 10 ^ 400) : digitsVal (natDecimal n) = n := by
  by_cases h0 : n = 0
  · simp [natDecimal, h0, digitsVal]
  · simp only [natDecimal, h0, if_false]
    exact natDecimalAux_val 400 n h

theorem natDecimal_digits (n : Nat) : ∀ b ∈ natDecimal n, 48 ≤ b ∧ b ≤ 57 := by
  by_cases h0 : n = 0
  · simp [natDecimal, h0]
  · simp only [natDecimal, h0, if_false]
    exact natDecimalAux_digits 400 n

theorem natDecimal_len (n k : Nat) (h : n < 10 ^ k) (hk : k ≤ 400) (hk0 : 0 < k) :
    (natDecimal n).length ≤ k := by
  by_cases h0 : n = 0
  · simp [natDecimal, h0]; omega
  · simp only [natDecimal, h0, if_false]
    exact natDecimalAux_len 400 n k h hk

theorem natDecimal_shape (n : Nat) (h : n < 10 ^ 400) :
    ∃ d0 ds, natDecimal n = d0 :: ds ∧ 48 ≤ d0 ∧ d0 ≤ 57 ∧ (n ≠ 0 → 49 ≤ d0) := by
  by_cases h0 : n = 0
  · exact ⟨48, [], by simp [natDecimal, h0], by omega, by omega, by omega⟩
  · simp only [natDecimal, h0, if_false]
    obtain ⟨hh, t, heq, hge, hle⟩ := natDecimalAux_head 400 n h0 h
    exact ⟨hh, t, heq, by omega, hle, fun _ => hge⟩

theorem stripAux_mul_pow : ∀ (k f : Nat) (m x : Int), ¬ (10 ∣ m) → k ≤ f →
    stripAux f (m * 10 ^ k) x = ⟨m, x + k⟩ := by
  intro k
  induction k with
  | zero =>
    intro f m x hm _
    rcases f with _ | f
    · simp [stripAux]
    · have hne : m % 10 ≠ 0 := fun hc => hm (Int.dvd_of_emod_eq_zero hc)
      simp [stripAux, hne]
  | succ k ih =>
    intro f m x hm hk
    rcases f with _ | f
    · omega
    · have hdvd : (10 : Int) ∣ m * 10 ^ (k + 1) := ⟨m * 10 ^ k, by ring⟩
      have hmod : m * 10 ^ (k + 1) % 10 = 0 := Int.emod_eq_zero_of_dvd hdvd
      have hdiv : m * 10 ^ (k + 1) / 10 = m * 10 ^ k := by
        rw [show m * 10 ^ (k + 1) = m * 10 ^ k * 10 by ring]
        exact Int.mul_ediv_cancel _ (by norm_num)
      simp only [stripAux, hmod, if_true, hdiv]
      rw [ih f m (x + 1) hm (by omega)]
      congr 1
      push_cast
      ring

theorem mkDec_canonical (m : Int) (e : Nat) (hm : ¬ (10 ∣ m)) (hm0 : m ≠ 0) (he : e ≤ 100) :
    mkDec (m * 10 ^ e) 0 = ⟨m, (e : Int)⟩ := by
  have hne : m * 10 ^ e ≠ 0 := by
    intro hc
    rcases mul_eq_zero.1 hc with h | h
    · exact hm0 h
    · exact absurd h (by positivity)
  simp only [mkDec, hne, if_false]
  rw [stripAux_mul_pow e 100 m 0 hm he]
  simp

theorem decOfToken_digits_only (n : Nat) (h : n < 10 ^ 400) :
    decOfToken (natDecimal n) = mkDec (n : Int) 0 := by
  obtain ⟨d0, ds, heq, hge, hle, _⟩ := natDecimal_shape n h
  have hall : ∀ b ∈ natDecimal n, isDigitB b = true := by
    intro b hb
    have := natDecimal_digits n b hb
    simp [isDigitB]; omega
  simp only [decOfToken, heq]
  rw [if_neg (by omega : ¬ d0 = 45)]
  have htake : (d0 :: ds).takeWhile isDigitB = d0 :: ds := by
    rw [List.takeWhile_eq_self_iff]
    intro b hb
    exact hall b (heq ▸ hb)
  have hdrop : (d0 :: ds).dropWhile isDigitB = [] := by
    rw [List.dropWhile_eq_nil_iff]
    intro b hb
    exact hall b (heq ▸ hb)
  simp only [htake, hdrop, List.append_nil]
  rw [← heq, natDecimal_val n h]
  norm_num

theorem decOfToken_neg_digits (n : Nat) (h : n < 10 ^ 400) :
    decOfToken (45 :: natDecimal n) = mkDec (-(n : Int)) 0 := by
  obtain ⟨d0, ds, heq, hge, hle, _⟩ := natDecimal_shape n h
  have hall : ∀ b ∈ natDecimal n, isDigitB b = true := by
    intro b hb
    have := natDecimal_digits n b hb
    simp [isDigitB]; omega
  simp only [decOfToken, heq, if_true]
  have htake : (d0 :: ds).takeWhile isDigitB = d0 :: ds := by
    rw [List.takeWhile_eq_self_iff]
    intro b hb
    exact hall b (heq ▸ hb)
  have hdrop : (d0 :: ds).dropWhile isDigitB = [] := by
    rw [List.dropWhile_eq_nil_iff]
    intro b hb
    exact hall b (heq ▸ hb)
  simp only [htake, hdrop, List.append_nil]
  rw [← heq, natDecimal_val n h]
  norm_num

theorem num_digits_go_all : ∀ (ds : List Nat) (rest : List Nat) (col : Nat) (a : NumAcc),
    (∀ b ∈ ds, isDigitB b = true) →
    a.buf.length + ds.length ≤ 63 →
    (rest = [] ∨ ∃ c r, rest = c :: r ∧ isDigitB c = false) →
    ∃ tr, num_digits_go (ds ++ rest) col a = (true, rest, col + ds.length, ⟨a.buf ++ ds, tr⟩) := by
  intro ds
  induction ds with
  | nil =>
    intro rest col a _ _ hrest
    refine ⟨a.tr, ?_⟩
    rcases hrest with h | ⟨c, r, hr, hc⟩
    · subst h; simp [num_digits_go]
    · subst hr; simp [num_digits_go, hc]
  | cons e ds ih =>
    intro rest col a hds hlen hrest
    have he : isDigitB e = true := hds e (by simp)
    have hbound : ¬ 63 ≤ a.buf.length := by
      simp only [List.length_cons] at hlen
      omega
    obtain ⟨tr, htr⟩ := ih rest (col + 1) (numWrite a e)
      (fun b hb => hds b (by simp [hb]))
      (by
        simp only [numWrite, List.length_append, List.length_singleton]
        simp only [List.length_cons] at hlen
        omega)
      hrest
    refine ⟨tr, ?_⟩
    simp only [List.cons_append, num_digits_go, he, if_true, hbound, if_false, List.append_eq]
    rw [htr]
    simp [numWrite, List.append_assoc]
    omega

theorem num_digits_loop_all (rest0 rest : List Nat) (line col : Nat) (err : ErrKind)
    (dep : Nat) (ern : Bool) (ds : List Nat) (a : NumAcc)
    (hds : ∀ b ∈ ds, isDigitB b = true)
    (hlen : a.buf.length + ds.length ≤ 63)
    (hrest0 : rest0 = ds ++ rest)
    (hrest : rest = [] ∨ ∃ c r, rest = c :: r ∧ isDigitB c = false) :
    ∃ tr, num_digits_loop ⟨rest0, line, col, err, dep, ern⟩ a =
      (true, ⟨rest, line, col + ds.length, err, dep, ern⟩, ⟨a.buf ++ ds, tr⟩) := by
  obtain ⟨tr, htr⟩ := num_digits_go_all ds rest col a hds hlen hrest
  refine ⟨tr, ?_⟩
  simp only [num_digits_loop, hrest0]
  rw [htr]

theorem pn_frac_skip (p : Parser) (a : NumAcc)
    (h : p.rest = [] ∨ ∃ c r, p.rest = c :: r ∧ ¬ c = 46) : pn_frac p a = (true, p, a) := by
  rcases h with h | ⟨c, r, hr, hc⟩
  · simp [pn_frac, h]
  · simp [pn_frac, hr, hc]

theorem pn_exp_skip (p : Parser) (a : NumAcc)
    (h : p.rest = [] ∨ ∃ c r, p.rest = c :: r ∧ ¬ c = 101 ∧ ¬ c = 69) :
    pn_exp p a = (true, p, a) := by
  rcases h with h | ⟨c, r, hr, hc1, hc2⟩
  · simp [pn_exp, h]
  · simp [pn_exp, hr]
    intro h
    rcases h with h | h <;> simp_all

theorem goodNumB_cases (d : Dec) (h : goodNumB d = true) :
    d = ⟨0, 0⟩ ∨ (¬ (10 : Int) ∣ d.m ∧ d.m ≠ 0 ∧ 0 ≤ d.e ∧ d.e ≤ 10 ∧
      d.m.natAbs * 10 ^ d.e.toNat < 10 ^ 10) := by
  simp only [goodNumB, Bool.or_eq_true, Bool.and_eq_true, decide_eq_true_eq] at h
  rcases h with ⟨h1, h2⟩ | ⟨⟨⟨h1, h2⟩, h3⟩, h4⟩
  · left
    rcases d with ⟨m, e⟩
    simp_all
  · right
    refine ⟨fun hd => h1 (Int.emod_eq_zero_of_dvd hd), fun h0 => by simp [h0] at h1, h2, h3, h4⟩

theorem decAbsIntegral_lt (d : Dec) (h : goodNumB d = true) : decAbsIntegral d < 10 ^ 10 := by
  rcases goodNumB_cases d h with h0 | ⟨_, _, he0, _, hlt⟩
  · subst h0; simp [decAbsIntegral]
  · simpa [decAbsIntegral, he0] using hlt

theorem rangeErr_good (d : Dec) (h : goodNumB d = true) : rangeErr d = false := by
  rcases goodNumB_cases d h with h0 | ⟨_, hm0, he0, he10, hlt⟩
  · subst h0; simp [rangeErr]
  · have hml : d.m.natAbs < 10 ^ (10 - d.e.toNat) := by
      have hsplit : (10 : Nat) ^ 10 = 10 ^ (10 - d.e.toNat) * 10 ^ d.e.toNat := by
        rw [← pow_add]
        congr 1
        omega
      by_contra hc
      push_neg at hc
      have : 10 ^ (10 - d.e.toNat) * 10 ^ d.e.toNat ≤ d.m.natAbs * 10 ^ d.e.toNat :=
        Nat.mul_le_mul_right _ hc
      omega
    have hdc : digitCount d.m.natAbs ≤ 10 - d.e.toNat := dcAux_le 400 _ _ hml
    simp only [rangeErr, hm0, if_false]
    have h1 : ¬ (309 < (digitCount d.m.natAbs : Int) + d.e) := by omega
    have h2 : ¬ ((digitCount d.m.natAbs : Int) + d.e < -323) := by omega
    simp [h1, h2]

theorem decOfToken_fmtF0 (d : Dec) (h : goodNumB d = true) : decOfToken (fmtF0 d) = d := by
  have hpow : (10 : Nat) ^ 10 < 10 ^ 400 := Nat.pow_lt_pow_right (by omega) (by omega)
  rcases goodNumB_cases d h with h0 | ⟨hdvd, hm0, he0, he10, hlt⟩
  · subst h0
    have hz : fmtF0 ⟨0, 0⟩ = natDecimal 0 := by
      simp [fmtF0, decAbsIntegral]
    rw [hz, decOfToken_digits_only 0 (by positivity)]
    simp [mkDec]
  · have hn400 : decAbsIntegral d < 10 ^ 400 := lt_trans (decAbsIntegral_lt d h) hpow
    have hval : decAbsIntegral d = d.m.natAbs * 10 ^ d.e.toNat := by
      simp [decAbsIntegral, he0]
    rcases lt_or_gt_of_ne hm0 with hneg | hpos
    · have hf : fmtF0 d = 45 :: natDecimal (decAbsIntegral d) := by
        simp [fmtF0, hneg]
      rw [hf, decOfToken_neg_digits _ hn400]
      have hcast : -((decAbsIntegral d : Nat) : Int) = d.m * 10 ^ d.e.toNat := by
        rw [hval]
        push_cast
        rw [abs_of_neg hneg]
        ring
      rw [hcast, mkDec_canonical d.m d.e.toNat hdvd hm0 (by omega)]
      rcases d with ⟨m, e⟩
      simp only [Dec.mk.injEq, true_and]
      exact Int.toNat_of_nonneg he0
    · have hf : fmtF0 d = natDecimal (decAbsIntegral d) := by
        simp [fmtF0, not_lt.2 (le_of_lt hpos)]
      rw [hf, decOfToken_digits_only _ hn400]
      have hcast : ((decAbsIntegral d : Nat) : Int) = d.m * 10 ^ d.e.toNat := by
        rw [hval]
        push_cast
        rw [abs_of_pos hpos]
      rw [hcast, mkDec_canonical d.m d.e.toNat hdvd hm0 (by omega)]
      rcases d with ⟨m, e⟩
      simp only [Dec.mk.injEq, true_and]
      exact Int.toNat_of_nonneg he0

theorem pn_int_print (n : Nat) (rest : List Nat) (line col : Nat) (err : ErrKind) (dep : Nat)
    (ern : Bool) (a : NumAcc)
    (hn : n < 10 ^ 400)
    (hlen : a.buf.length + (natDecimal n).length ≤ 63)
    (hrest : rest = [] ∨ ∃ c r, rest = c :: r ∧ isDigitB c = false) :
    ∃ tr, pn_int ⟨natDecimal n ++ rest, line, col, err, dep, ern⟩ a =
      (true, ⟨rest, line, col + (natDecimal n).length, err, dep, ern⟩,
        ⟨a.buf ++ natDecimal n, tr⟩) := by
  by_cases h0 : n = 0
  · subst h0
    have hnd : natDecimal 0 = [48] := rfl
    rw [hnd] at hlen ⊢
    rcases hrest with hr | ⟨c, r, hr, hc⟩
    · subst hr
      exact ⟨(numWrite a 48).tr, by simp [pn_int, isDigitB, numWrite]⟩
    · subst hr
      simp only [isDigitB, Bool.and_eq_false_iff, decide_eq_false_iff_not, not_le] at hc
      exact ⟨(numWrite a 48).tr, by
        simp [pn_int, isDigitB, numWrite]
        omega⟩
  · obtain ⟨d0, ds, heq, hge, hle, h49⟩ := natDecimal_shape n hn
    have h49' := h49 h0
    have hdall : ∀ b ∈ natDecimal n, isDigitB b = true := by
      intro b hb
      have := natDecimal_digits n b hb
      simp [isDigitB]; omega
    obtain ⟨tr, htr⟩ := num_digits_loop_all (natDecimal n ++ rest) rest line col err dep ern
      (natDecimal n) a hdall hlen rfl hrest
    refine ⟨tr, ?_⟩
    rw [heq] at htr ⊢
    have hd0 : isDigitB d0 = true := hdall d0 (by rw [heq]; simp)
    simp only [List.cons_append, pn_int, hd0, not_true, if_false,
      show ¬ d0 = 48 by omega, reduceIte]
    rw [show (d0 :: ds) ++ rest = d0 :: (ds ++ rest) from rfl] at htr
    exact htr

theorem pn_finish_print (rest : List Nat) (line col : Nat) (err : ErrKind) (dep : Nat)
    (d : Dec) (a : NumAcc) (hgood : goodNumB d = true) (hbuf : a.buf = fmtF0 d) :
    ∃ tr, pn_finish ⟨rest, line, col, err, dep, false⟩ a =
      (some d, ⟨rest, line, col, err, dep, false⟩, tr) := by
  refine ⟨a.tr ++ [a.buf.length], ?_⟩
  simp only [pn_finish, hbuf, decOfToken_fmtF0 d hgood, rangeErr_good d hgood]
  simp [errSet]

theorem parse_number_print (rest : List Nat) (line col : Nat) (err : ErrKind) (dep : Nat)
    (d : Dec) (hgood : goodNumB d = true)
    (hsep : rest = [] ∨ ∃ c r, rest = c :: r ∧ numContB c = false) :
    parse_number ⟨fmtF0 d ++ rest, line, col, err, dep, false⟩ =
      (some (.number d), ⟨rest, line, col + (fmtF0 d).length, err, dep, false⟩) := by
  have hpow : (10 : Nat) ^ 10 < 10 ^ 400 := Nat.pow_lt_pow_right (by omega) (by omega)
  have hn400 : decAbsIntegral d < 10 ^ 400 := lt_trans (decAbsIntegral_lt d hgood) hpow
  have hlen10 : (natDecimal (decAbsIntegral d)).length ≤ 10 :=
    natDecimal_len _ 10 (decAbsIntegral_lt d hgood) (by omega) (by omega)
  have hsepD : rest = [] ∨ ∃ c r, rest = c :: r ∧ isDigitB c = false := by
    rcases hsep with h | ⟨c, r, hr, hc⟩
    · exact Or.inl h
    · refine Or.inr ⟨c, r, hr, ?_⟩
      simp only [numContB, Bool.or_eq_false_iff] at hc
      exact hc.1.1.1
  have hsep46 : ∀ col2 : Nat,
      (⟨rest, line, col2, err, dep, false⟩ : Parser).rest = [] ∨
        ∃ c r, (⟨rest, line, col2, err, dep, false⟩ : Parser).rest = c :: r ∧ ¬ c = 46 := by
    intro col2
    rcases hsep with h | ⟨c, r, hr, hc⟩
    · exact Or.inl h
    · refine Or.inr ⟨c, r, hr, ?_⟩
      simp only [numContB, Bool.or_eq_false_iff, decide_eq_false_iff_not] at hc
      exact hc.1.1.2
  have hsepE : ∀ col2 : Nat,
      (⟨rest, line, col2, err, dep, false⟩ : Parser).rest = [] ∨
        ∃ c r, (⟨rest, line, col2, err, dep, false⟩ : Parser).rest = c :: r ∧
          ¬ c = 101 ∧ ¬ c = 69 := by
    intro col2
    rcases hsep with h | ⟨c, r, hr, hc⟩
    · exact Or.inl h
    · refine Or.inr ⟨c, r, hr, ?_⟩
      simp only [numContB, Bool.or_eq_false_iff, decide_eq_false_iff_not] at hc
      exact ⟨hc.1.2, hc.2⟩
  by_cases hneg : d.m < 0
  · have hf : fmtF0 d = 45 :: natDecimal (decAbsIntegral d) := by simp [fmtF0, hneg]
    obtain ⟨tr1, h1⟩ := pn_int_print (decAbsIntegral d) rest line (col + 1) err dep false
      ⟨[45], [0]⟩ hn400 (by simp; omega) hsepD
    obtain ⟨tr2, h2⟩ := pn_finish_print rest line
      (col + 1 + (natDecimal (decAbsIntegral d)).length) err dep d
      ⟨[45] ++ natDecimal (decAbsIntegral d), tr1⟩ hgood (by simp [hf])
    have hfr := pn_frac_skip
      ⟨rest, line, col + 1 + (natDecimal (decAbsIntegral d)).length, err, dep, false⟩
      ⟨[45] ++ natDecimal (decAbsIntegral d), tr1⟩ (hsep46 _)
    have hex := pn_exp_skip
      ⟨rest, line, col + 1 + (natDecimal (decAbsIntegral d)).length, err, dep, false⟩
      ⟨[45] ++ natDecimal (decAbsIntegral d), tr1⟩ (hsepE _)
    have hcore : parse_number_core ⟨fmtF0 d ++ rest, line, col, err, dep, false⟩ =
        (some d, ⟨rest, line, col + 1 + (natDecimal (decAbsIntegral d)).length,
          err, dep, false⟩, tr2) := by
      rw [hf]
      simp only [parse_number_core, List.cons_append, reduceIte]
      rw [show numWrite ⟨[], []⟩ 45 = (⟨[45], [0]⟩ : NumAcc) from rfl]
      simp only [pn_after_sign]
      rw [h1]
      simp only [pn_after_int]
      rw [hfr]
      simp only [pn_after_frac]
      rw [hex]
      exact h2
    simp only [parse_number, hcore]
    have : col + 1 + (natDecimal (decAbsIntegral d)).length = col + (fmtF0 d).length := by
      rw [hf]
      simp [List.length_cons]
      omega
    rw [this]
  · have hf : fmtF0 d = natDecimal (decAbsIntegral d) := by simp [fmtF0, hneg]
    obtain ⟨d0, ds, heq, hge, hle, _⟩ := natDecimal_shape _ hn400
    obtain ⟨tr1, h1⟩ := pn_int_print (decAbsIntegral d) rest line col err dep false
      ⟨[], []⟩ hn400 (by simp; omega) hsepD
    obtain ⟨tr2, h2⟩ := pn_finish_print rest line
      (col + (natDecimal (decAbsIntegral d)).length) err dep d
      ⟨[] ++ natDecimal (decAbsIntegral d), tr1⟩ hgood (by simp [hf])
    have hfr := pn_frac_skip
      ⟨rest, line, col + (natDecimal (decAbsIntegral d)).length, err, dep, false⟩
      ⟨[] ++ natDecimal (decAbsIntegral d), tr1⟩ (hsep46 _)
    have hex := pn_exp_skip
      ⟨rest, line, col + (natDecimal (decAbsIntegral d)).length, err, dep, false⟩
      ⟨[] ++ natDecimal (decAbsIntegral d), tr1⟩ (hsepE _)
    have hcore : parse_number_core ⟨fmtF0 d ++ rest, line, col, err, dep, false⟩ =
        (some d, ⟨rest, line, col + (natDecimal (decAbsIntegral d)).length,
          err, dep, false⟩, tr2) := by
      rw [hf, heq]
      simp only [parse_number_core, List.cons_append, show ¬ d0 = 45 by omega, reduceIte]
      rw [← List.cons_append, ← heq]
      simp only [pn_after_sign]
      rw [h1]
      simp only [pn_after_int]
      rw [hfr]
      simp only [pn_after_frac]
      rw [hex]
      exact h2
    simp only [parse_number, hcore]
    rw [hf]

theorem plainStrB_elim (s : List Nat) (h : plainStrB s = true) :
    s.length ≤ 2097151 ∧ ∀ b ∈ s, 32 ≤ b ∧ ¬ b = 34 ∧ ¬ b = 92 := by
  simp only [plainStrB, Bool.and_eq_true, List.all_eq_true, decide_eq_true_eq] at h
  refine ⟨h.1, fun b hb => ?_⟩
  have := h.2 b hb
  simp only [Bool.and_eq_true, decide_eq_true_eq, ne_eq] at this
  exact ⟨this.1.1, this.1.2, this.2⟩

theorem truncNul_plain : ∀ (s : List Nat), (∀ b ∈ s, 32 ≤ b) → truncNul s = s := by
  intro s
  induction s with
  | nil => exact fun _ => rfl
  | cons c r ih =>
    intro h
    have h32 := h c (List.mem_cons_self c r)
    have hr := ih (fun b hb => h b (List.mem_cons_of_mem c hb))
    simp only [truncNul] at hr ⊢
    rw [List.takeWhile_cons]
    have hc : ¬ c = 0 := by omega
    simp [hc, hr]
    exact fun x hx => by have := h x (List.mem_cons_of_mem c hx); omega

theorem string_scan_go_plain : ∀ (s rest : List Nat) (col : Nat) (buf : List Nat),
    (∀ b ∈ s, 32 ≤ b ∧ ¬ b = 34 ∧ ¬ b = 92) → buf.length + s.length ≤ 2097151 →
    string_scan_go (s ++ 34 :: rest) col buf = (.ok (buf ++ s), rest, col + s.length + 1) := by
  intro s
  induction s with
  | nil =>
    intro rest col buf _ _
    simp only [List.nil_append, List.append_nil, List.length_nil]
    rw [string_scan_go.eq_def]
    simp
  | cons c s ih =>
    intro rest col buf hall hlen
    obtain ⟨h32, h34, h92⟩ := hall c (List.mem_cons_self c s)
    have hlenc : buf.length < 2097151 := by
      simp only [List.length_cons] at hlen; omega
    have hih := ih rest (col + 1) (buf ++ [c])
      (fun b hb => hall b (List.mem_cons_of_mem c hb))
      (by simp only [List.length_append, List.length_cons, List.length_nil] at hlen ⊢; omega)
    rw [List.cons_append, string_scan_go.eq_def]
    dsimp only
    rw [if_neg h34, if_neg (show ¬ 2097151 ≤ buf.length by omega), if_neg h92,
      if_neg (show ¬ c < 32 by omega), hih,
      show buf ++ [c] ++ s = buf ++ c :: s by simp,
      show col + 1 + s.length + 1 = col + (c :: s).length + 1 by simp; omega]

theorem skip_whitespace_cons_nws (c : Nat) (r : List Nat) (line col : Nat) (err : ErrKind)
    (dep : Nat) (ern : Bool) (hc : isWsB c = false) :
    skip_whitespace ⟨c :: r, line, col, err, dep, ern⟩ = ⟨c :: r, line, col, err, dep, ern⟩ := by
  simp [skip_whitespace, skip_whitespace_aux, hc]

theorem consume_char_exact (c : Nat) (r : List Nat) (line col : Nat) (err : ErrKind)
    (dep : Nat) (ern : Bool) (hc : isWsB c = false) :
    consume_char ⟨c :: r, line, col, err, dep, ern⟩ c =
      (true, ⟨r, line, col + 1, err, dep, ern⟩) := by
  simp only [consume_char, skip_whitespace_cons_nws c r line col err dep ern hc]
  simp

theorem peek_char_at (c : Nat) (r : List Nat) (line col : Nat) (err : ErrKind) (dep : Nat)
    (ern : Bool) (x : Nat) (hc : isWsB c = false) :
    peek_char ⟨c :: r, line, col, err, dep, ern⟩ x =
      (decide (c = x), ⟨c :: r, line, col, err, dep, ern⟩) := by
  simp only [peek_char, skip_whitespace_cons_nws c r line col err dep ern hc]

theorem parse_string_print (s rest : List Nat) (line col : Nat) (err : ErrKind) (dep : Nat)
    (ern : Bool) (hp : plainStrB s = true) :
    parse_string ⟨34 :: (s ++ 34 :: rest), line, col, err, dep, ern⟩ =
      (some (.string s), ⟨rest, line, col + s.length + 2, err, dep, ern⟩) := by
  obtain ⟨hlen, hall⟩ := plainStrB_elim s hp
  have hcc := consume_char_exact 34 (s ++ 34 :: rest) line col err dep ern rfl
  have hsg := string_scan_go_plain s rest (col + 1) [] hall (by simpa using hlen)
  simp only [parse_string, hcc, string_scan, hsg]
  simp only [List.nil_append]
  rw [show col + 1 + s.length + 1 = col + s.length + 2 by omega]

theorem parse_null_print (rest : List Nat) (line col : Nat) (err : ErrKind) (dep : Nat)
    (ern : Bool) :
    parse_null ⟨110 :: 117 :: 108 :: 108 :: rest, line, col, err, dep, ern⟩ =
      (some .null, ⟨rest, line, col + 4, err, dep, ern⟩) := by
  simp [parse_null]

theorem parse_true_print (rest : List Nat) (line col : Nat) (err : ErrKind) (dep : Nat)
    (ern : Bool) :
    parse_boolean ⟨116 :: 114 :: 117 :: 101 :: rest, line, col, err, dep, ern⟩ =
      (some (.boolean true), ⟨rest, line, col + 4, err, dep, ern⟩) := by
  simp [parse_boolean]

theorem parse_false_print (rest : List Nat) (line col : Nat) (err : ErrKind) (dep : Nat)
    (ern : Bool) :
    parse_boolean ⟨102 :: 97 :: 108 :: 115 :: 101 :: rest, line, col, err, dep, ern⟩ =
      (some (.boolean false), ⟨rest, line, col + 5, err, dep, ern⟩) := by
  simp [parse_boolean]

theorem parse_value_number_dispatch (fuel : Nat) (c : Nat) (t : List Nat) (line col : Nat)
    (err : ErrKind) (dep : Nat) (ern : Bool) (hc : c = 45 ∨ (48 ≤ c ∧ c ≤ 57)) :
    parse_value (fuel + 1) ⟨c :: t, line, col, err, dep, ern⟩ =
      parse_number ⟨c :: t, line, col, err, dep, ern⟩ := by
  have hws : isWsB c = false := by simp [isWsB]; omega
  simp only [parse_value, skip_whitespace_cons_nws c t line col err dep ern hws]
  rw [if_neg (show ¬ c = 110 by omega),
    if_neg (show ¬ ((c = 116 || c = 102 : Bool) = true) by simp; omega),
    if_neg (show ¬ c = 34 by omega),
    if_neg (show ¬ c = 91 by omega),
    if_neg (show ¬ c = 123 by omega),
    if_pos (show (c = 45 || isDigitB c : Bool) = true by simp [isDigitB]; omega)]

theorem goodNum_branch (d : Dec) (h : goodNumB d = true) :
    (dec_is_integral d && dec_abs_lt_1e10 d) = true := by
  rcases goodNumB_cases d h with h0 | ⟨_, hm0, he0, he10, hlt⟩
  · subst h0; rfl
  · have hml : d.m.natAbs < 10 ^ (10 - d.e.toNat) := by
      have hsplit : (10 : Nat) ^ 10 = 10 ^ (10 - d.e.toNat) * 10 ^ d.e.toNat := by
        rw [← pow_add]
        congr 1
        omega
      by_contra hc
      push_neg at hc
      have := Nat.mul_le_mul_right (10 ^ d.e.toNat) hc
      omega
    have hdc : digitCount d.m.natAbs ≤ 10 - d.e.toNat := dcAux_le 400 _ _ hml
    simp only [dec_is_integral, dec_abs_lt_1e10, Bool.and_eq_true, Bool.or_eq_true,
      decide_eq_true_eq]
    exact ⟨Or.inl (Or.inr he0), Or.inr (by omega)⟩

theorem fmtF0_shape (d : Dec) (h : goodNumB d = true) :
    ∃ c t, fmtF0 d = c :: t ∧ (c = 45 ∨ (48 ≤ c ∧ c ≤ 57)) := by
  have hn400 : decAbsIntegral d < 10 ^ 400 :=
    lt_trans (decAbsIntegral_lt d h) (Nat.pow_lt_pow_right (by omega) (by omega))
  obtain ⟨d0, ds, heq, hge, hle, _⟩ := natDecimal_shape _ hn400
  by_cases hneg : d.m < 0
  · exact ⟨45, natDecimal (decAbsIntegral d), by simp [fmtF0, hneg], Or.inl rfl⟩
  · exact ⟨d0, ds, by simp [fmtF0, hneg, heq], Or.inr ⟨hge, hle⟩⟩

theorem print_number_good (d : Dec) (i : Nat) (pr : Bool) (h : goodNumB d = true) :
    json_print_value (.number d) i pr = fmtF0 d := by
  simp [json_print_value, goodNum_branch d h]

theorem print_array_compact (items : List JsonValue) (i : Nat) :
    json_print_value (.array items) i false =
      91 :: (print_array_items items i false ++ [93]) := by
  simp [json_print_value]

theorem print_object_compact (pairs : List (List Nat × JsonValue)) (i : Nat) :
    json_print_value (.object pairs) i false =
      123 :: (print_object_items pairs i false ++ [125]) := by
  simp [json_print_value]

theorem print_array_items_compact (v : JsonValue) (rest : List JsonValue) (i : Nat) :
    print_array_items (v :: rest) i false =
      json_print_value v (i + 1) false ++
        ((if rest.isEmpty then [] else [44]) ++ print_array_items rest i false) := by
  simp [print_array_items]

theorem print_object_items_compact (k : List Nat) (v : JsonValue)
    (rest : List (List Nat × JsonValue)) (i : Nat) :
    print_object_items ((k, v) :: rest) i false =
      34 :: (truncNul k ++ 34 :: 58 :: (json_print_value v (i + 1) false ++
        ((if rest.isEmpty then [] else [44]) ++ print_object_items rest i false))) := by
  simp [print_object_items]

theorem print_len_pos (v : JsonValue) (i : Nat) (h : GoodB v = true) :
    1 ≤ (json_print_value v i false).length := by
  cases v with
  | null => simp [json_print_value]
  | boolean b => cases b <;> simp [json_print_value]
  | number d =>
    have hg : goodNumB d = true := by simpa [GoodB] using h
    rw [print_number_good d i false hg]
    obtain ⟨c, t, heq, _⟩ := fmtF0_shape d hg
    simp [heq]
  | string s => simp [json_print_value]
  | array items => simp [print_array_compact]
  | object pairs => simp [print_object_compact]

theorem print_head_ne (v : JsonValue) (i : Nat) (h : GoodB v = true) :
    ∃ c t, json_print_value v i false = c :: t ∧ isWsB c = false ∧
      ¬ c = 93 ∧ ¬ c = 125 ∧ ¬ c = 44 := by
  cases v with
  | null =>
    exact ⟨110, [117, 108, 108], by simp [json_print_value], rfl, by omega, by omega, by omega⟩
  | boolean b =>
    cases b
    · exact ⟨102, [97, 108, 115, 101], by simp [json_print_value], rfl,
        by omega, by omega, by omega⟩
    · exact ⟨116, [114, 117, 101], by simp [json_print_value], rfl,
        by omega, by omega, by omega⟩
  | number d =>
    have hg : goodNumB d = true := by simpa [GoodB] using h
    obtain ⟨c, t, heq, hc⟩ := fmtF0_shape d hg
    exact ⟨c, t, by rw [print_number_good d i false hg, heq],
      by simp [isWsB]; omega, by omega, by omega, by omega⟩
  | string s =>
    exact ⟨34, truncNul s ++ [34], by simp [json_print_value], rfl,
      by omega, by omega, by omega⟩
  | array items =>
    exact ⟨91, _, print_array_compact items i, rfl, by omega, by omega, by omega⟩
  | object pairs =>
    exact ⟨123, _, print_object_compact pairs i, rfl, by omega, by omega, by omega⟩

theorem numSepB_cons (v : JsonValue) (c : Nat) (r : List Nat) (hc : numContB c = false) :
    numSepB v (c :: r) = true := by
  cases v <;> simp [numSepB, hc]

theorem numSepB_elim (d : Dec) (rest : List Nat) (h : numSepB (.number d) rest = true) :
    rest = [] ∨ ∃ c r, rest = c :: r ∧ numContB c = false := by
  cases rest with
  | nil => exact Or.inl rfl
  | cons c r =>
    refine Or.inr ⟨c, r, rfl, ?_⟩
    simpa [numSepB] using h

theorem heightL_le (l : List JsonValue) (k : Nat) (h : ∀ v ∈ l, heightV v ≤ k) :
    heightL l ≤ k := by
  induction l with
  | nil => simp [heightL]
  | cons v r ih =>
    simp only [heightL, max_le_iff]
    exact ⟨h v (List.mem_cons_self v r),
      ih (fun w hw => h w (List.mem_cons_of_mem v hw))⟩

theorem heightP_le (l : List (List Nat × JsonValue)) (k : Nat)
    (h : ∀ kv ∈ l, heightV kv.2 ≤ k) : heightP l ≤ k := by
  induction l with
  | nil => simp [heightP]
  | cons kv r ih =>
    simp only [heightP, max_le_iff]
    exact ⟨h kv (List.mem_cons_self kv r),
      ih (fun w hw => h w (List.mem_cons_of_mem kv hw))⟩

theorem parse_value_null_print (fuel : Nat) (rest : List Nat) (line col : Nat) (err : ErrKind)
    (dep : Nat) (ern : Bool) :
    parse_value (fuel + 1) ⟨110 :: 117 :: 108 :: 108 :: rest, line, col, err, dep, ern⟩ =
      (some .null, ⟨rest, line, col + 4, err, dep, ern⟩) := by
  simp only [parse_value,
    skip_whitespace_cons_nws 110 (117 :: 108 :: 108 :: rest) line col err dep ern rfl]
  try simp only [reduceIte]
  exact parse_null_print rest line col err dep ern

theorem parse_value_true_print (fuel : Nat) (rest : List Nat) (line col : Nat) (err : ErrKind)
    (dep : Nat) (ern : Bool) :
    parse_value (fuel + 1) ⟨116 :: 114 :: 117 :: 101 :: rest, line, col, err, dep, ern⟩ =
      (some (.boolean true), ⟨rest, line, col + 4, err, dep, ern⟩) := by
  simp only [parse_value,
    skip_whitespace_cons_nws 116 (114 :: 117 :: 101 :: rest) line col err dep ern rfl]
  try simp only [reduceIte]
  exact parse_true_print rest line col err dep ern

theorem parse_value_false_print (fuel : Nat) (rest : List Nat) (line col : Nat) (err : ErrKind)
    (dep : Nat) (ern : Bool) :
    parse_value (fuel + 1) ⟨102 :: 97 :: 108 :: 115 :: 101 :: rest, line, col, err, dep, ern⟩ =
      (some (.boolean false), ⟨rest, line, col + 5, err, dep, ern⟩) := by
  simp only [parse_value,
    skip_whitespace_cons_nws 102 (97 :: 108 :: 115 :: 101 :: rest) line col err dep ern rfl]
  try simp only [reduceIte]
  exact parse_false_print rest line col err dep ern

theorem parse_value_string_print (fuel : Nat) (s rest : List Nat) (line col : Nat)
    (err : ErrKind) (dep : Nat) (ern : Bool) (hp : plainStrB s = true) :
    parse_value (fuel + 1) ⟨34 :: (s ++ 34 :: rest), line, col, err, dep, ern⟩ =
      (some (.string s), ⟨rest, line, col + s.length + 2, err, dep, ern⟩) := by
  simp only [parse_value,
    skip_whitespace_cons_nws 34 (s ++ 34 :: rest) line col err dep ern rfl]
  try simp only [reduceIte]
  exact parse_string_print s rest line col err dep ern hp

theorem parse_value_number_print (fuel : Nat) (d : Dec) (rest : List Nat) (line col : Nat)
    (err : ErrKind) (dep : Nat) (hgood : goodNumB d = true)
    (hsep : rest = [] ∨ ∃ c r, rest = c :: r ∧ numContB c = false) :
    parse_value (fuel + 1) ⟨fmtF0 d ++ rest, line, col, err, dep, false⟩ =
      (some (.number d), ⟨rest, line, col + (fmtF0 d).length, err, dep, false⟩) := by
  obtain ⟨c, t, heq, hc⟩ := fmtF0_shape d hgood
  rw [heq, List.cons_append,
    parse_value_number_dispatch fuel c (t ++ rest) line col err dep false hc,
    ← List.cons_append, ← heq]
  exact parse_number_print rest line col err dep d hgood hsep

theorem parse_value_array_dispatch (fuel : Nat) (t : List Nat) (line col : Nat)
    (err : ErrKind) (dep : Nat) (ern : Bool) :
    parse_value (fuel + 1) ⟨91 :: t, line, col, err, dep, ern⟩ =
      parse_array fuel ⟨91 :: t, line, col, err, dep, ern⟩ := by
  simp only [parse_value, skip_whitespace_cons_nws 91 t line col err dep ern rfl]
  try simp only [reduceIte]
  norm_num

theorem parse_value_object_dispatch (fuel : Nat) (t : List Nat) (line col : Nat)
    (err : ErrKind) (dep : Nat) (ern : Bool) :
    parse_value (fuel + 1) ⟨123 :: t, line, col, err, dep, ern⟩ =
      parse_object fuel ⟨123 :: t, line, col, err, dep, ern⟩ := by
  simp only [parse_value, skip_whitespace_cons_nws 123 t line col err dep ern rfl]
  try simp only [reduceIte]
  norm_num

theorem parse_array_empty (fuel : Nat) (rest : List Nat) (line col : Nat) (err : ErrKind)
    (dep : Nat) (ern : Bool) (hdep : dep + 1 ≤ 128) :
    parse_array (fuel + 1) ⟨91 :: 93 :: rest, line, col, err, dep, ern⟩ =
      (some (.array []), ⟨rest, line, col + 2, err, dep, ern⟩) := by
  simp only [parse_array, consume_char_exact 91 (93 :: rest) line col err dep ern rfl]
  try dsimp only
  rw [if_neg (show ¬ 128 < dep + 1 by omega)]
  rw [skip_whitespace_cons_nws 93 rest line (col + 1) err (dep + 1) ern rfl,
    peek_char_at 93 rest line (col + 1) err (dep + 1) ern 93 rfl]
  simp [consume_char_exact 93 rest line (col + 1) err (dep + 1) ern rfl]

theorem parse_object_empty (fuel : Nat) (rest : List Nat) (line col : Nat) (err : ErrKind)
    (dep : Nat) (ern : Bool) (hdep : dep + 1 ≤ 128) :
    parse_object (fuel + 1) ⟨123 :: 125 :: rest, line, col, err, dep, ern⟩ =
      (some (.object []), ⟨rest, line, col + 2, err, dep, ern⟩) := by
  simp only [parse_object, consume_char_exact 123 (125 :: rest) line col err dep ern rfl]
  try dsimp only
  rw [if_neg (show ¬ 128 < dep + 1 by omega)]
  rw [skip_whitespace_cons_nws 125 rest line (col + 1) err (dep + 1) ern rfl,
    peek_char_at 125 rest line (col + 1) err (dep + 1) ern 125 rfl]
  simp [consume_char_exact 125 rest line (col + 1) err (dep + 1) ern rfl]

theorem parse_array_step (fuel : Nat) (c : Nat) (t : List Nat) (line col : Nat)
    (err : ErrKind) (dep : Nat) (ern : Bool) (hdep : dep + 1 ≤ 128) (hws : isWsB c = false)
    (hc : ¬ c = 93) :
    parse_array (fuel + 1) ⟨91 :: c :: t, line, col, err, dep, ern⟩ =
      (match parse_array_items fuel ⟨c :: t, line, col + 1, err, dep + 1, ern⟩ [] with
        | (some items, p5) => (some (.array items), { p5 with depth := p5.depth - 1 })
        | (none, p5) => (none, p5)) := by
  simp only [parse_array, consume_char_exact 91 (c :: t) line col err dep ern rfl]
  try dsimp only
  rw [if_neg (show ¬ 128 < dep + 1 by omega)]
  rw [skip_whitespace_cons_nws c t line (col + 1) err (dep + 1) ern hws,
    peek_char_at c t line (col + 1) err (dep + 1) ern 93 hws]
  rw [show (decide (c = 93)) = false by simp [hc]]

theorem parse_object_step (fuel : Nat) (c : Nat) (t : List Nat) (line col : Nat)
    (err : ErrKind) (dep : Nat) (ern : Bool) (hdep : dep + 1 ≤ 128) (hws : isWsB c = false)
    (hc : ¬ c = 125) :
    parse_object (fuel + 1) ⟨123 :: c :: t, line, col, err, dep, ern⟩ =
      (match parse_object_items fuel ⟨c :: t, line, col + 1, err, dep + 1, ern⟩ [] with
        | (some pairs, p5) => (some (.object pairs), { p5 with depth := p5.depth - 1 })
        | (none, p5) => (none, p5)) := by
  simp only [parse_object, consume_char_exact 123 (c :: t) line col err dep ern rfl]
  try dsimp only
  rw [if_neg (show ¬ 128 < dep + 1 by omega)]
  rw [skip_whitespace_cons_nws c t line (col + 1) err (dep + 1) ern hws,
    peek_char_at c t line (col + 1) err (dep + 1) ern 125 hws]
  rw [show (decide (c = 125)) = false by simp [hc]]

theorem parse_array_deep (fuel : Nat) (t : List Nat) (line col : Nat) (err : ErrKind)
    (dep : Nat) (ern : Bool) (hdep : 128 < dep + 1) :
    parse_array (fuel + 1) ⟨91 :: t, line, col, err, dep, ern⟩ =
      (none, ⟨t, line, col + 1, .maxNestingDepthExceeded, dep + 1, ern⟩) := by
  simp only [parse_array, consume_char_exact 91 t line col err dep ern rfl]
  try dsimp only
  rw [if_pos hdep]
  simp [errSet]

theorem parse_object_deep (fuel : Nat) (t : List Nat) (line col : Nat) (err : ErrKind)
    (dep : Nat) (ern : Bool) (hdep : 128 < dep + 1) :
    parse_object (fuel + 1) ⟨123 :: t, line, col, err, dep, ern⟩ =
      (none, ⟨t, line, col + 1, .maxNestingDepthExceeded, dep + 1, ern⟩) := by
  simp only [parse_object, consume_char_exact 123 t line col err dep ern rfl]
  try dsimp only
  rw [if_pos hdep]
  simp [errSet]

theorem roundtrip_master (fuel : Nat) :
    (∀ (v : JsonValue) (i : Nat) (rest : List Nat) (line col : Nat) (err : ErrKind) (dep : Nat),
      GoodB v = true → numSepB v rest = true → dep + heightV v ≤ 128 →
      2 * (json_print_value v i false).length ≤ fuel →
      ∃ col2, parse_value fuel ⟨json_print_value v i false ++ rest, line, col, err, dep, false⟩ =
        (some v, ⟨rest, line, col2, err, dep, false⟩)) ∧
    (∀ (items : List JsonValue) (i : Nat) (rest : List Nat) (line col : Nat) (err : ErrKind)
        (dep : Nat) (acc : List JsonValue),
      items ≠ [] → GoodL items = true → dep + heightL items ≤ 128 →
      2 * (print_array_items items i false).length + 2 ≤ fuel →
      ∃ col2, parse_array_items fuel
          ⟨print_array_items items i false ++ 93 :: rest, line, col, err, dep, false⟩ acc =
        (some (acc ++ items), ⟨rest, line, col2, err, dep, false⟩)) ∧
    (∀ (pairs : List (List Nat × JsonValue)) (i : Nat) (rest : List Nat) (line col : Nat)
        (err : ErrKind) (dep : Nat) (acc : List (List Nat × JsonValue)),
      pairs ≠ [] → GoodP pairs = true → dep + heightP pairs ≤ 128 →
      2 * (print_object_items pairs i false).length + 2 ≤ fuel →
      ∃ col2, parse_object_items fuel
          ⟨print_object_items pairs i false ++ 125 :: rest, line, col, err, dep, false⟩ acc =
        (some (acc ++ pairs), ⟨rest, line, col2, err, dep, false⟩)) := by
  induction fuel using Nat.strong_induction_on with
  | _ fuel ih =>
    refine ⟨?_, ?_, ?_⟩
    · intro v i rest line col err dep hgood hsep hdep hfuel
      have hlp := print_len_pos v i hgood
      obtain ⟨f1, rfl⟩ : ∃ f1, fuel = f1 + 1 := ⟨fuel - 1, by omega⟩
      cases v with
      | null =>
        refine ⟨col + 4, ?_⟩
        rw [show json_print_value .null i false ++ rest = 110 :: 117 :: 108 :: 108 :: rest by
          simp [json_print_value]]
        exact parse_value_null_print f1 rest line col err dep false
      | boolean b =>
        cases b
        · refine ⟨col + 5, ?_⟩
          rw [show json_print_value (.boolean false) i false ++ rest =
            102 :: 97 :: 108 :: 115 :: 101 :: rest by simp [json_print_value]]
          exact parse_value_false_print f1 rest line col err dep false
        · refine ⟨col + 4, ?_⟩
          rw [show json_print_value (.boolean true) i false ++ rest =
            116 :: 114 :: 117 :: 101 :: rest by simp [json_print_value]]
          exact parse_value_true_print f1 rest line col err dep false
      | number d =>
        have hg : goodNumB d = true := by simpa only [GoodB] using hgood
        refine ⟨col + (fmtF0 d).length, ?_⟩
        rw [print_number_good d i false hg]
        exact parse_value_number_print f1 d rest line col err dep hg (numSepB_elim d rest hsep)
      | string s =>
        have hp : plainStrB s = true := by simpa only [GoodB] using hgood
        refine ⟨col + s.length + 2, ?_⟩
        rw [show json_print_value (.string s) i false ++ rest = 34 :: (s ++ 34 :: rest) by
          simp [json_print_value, truncNul_plain s (fun b hb => ((plainStrB_elim s hp).2 b hb).1)]]
        exact parse_value_string_print f1 s rest line col err dep false hp
      | array items =>
        have hga : GoodL items = true := by simpa only [GoodB] using hgood
        simp only [heightV] at hdep
        have hpa := print_array_compact items i
        have hlen2 : (json_print_value (.array items) i false).length =
            (print_array_items items i false).length + 2 := by
          rw [hpa]; simp
        obtain ⟨g, rfl⟩ : ∃ g, f1 = g + 1 := ⟨f1 - 1, by omega⟩
        cases items with
        | nil =>
          refine ⟨col + 2, ?_⟩
          rw [show json_print_value (.array []) i false ++ rest = 91 :: 93 :: rest by
            rw [hpa]; simp [print_array_items]]
          rw [parse_value_array_dispatch (g + 1)]
          exact parse_array_empty g rest line col err dep false (by omega)
        | cons v vs =>
          have hgv : GoodB v = true := by
            simp only [GoodL, Bool.and_eq_true] at hga; exact hga.1
          obtain ⟨c, t, hpv, hws, hc93, _, _⟩ := print_head_ne v (i + 1) hgv
          have hct : print_array_items (v :: vs) i false ++ 93 :: rest =
              c :: (t ++ ((if vs.isEmpty then [] else [44]) ++ print_array_items vs i false)
                ++ 93 :: rest) := by
            rw [print_array_items_compact, hpv]; simp
          obtain ⟨col2, hitems⟩ := (ih g (by omega)).2.1 (v :: vs) i rest line (col + 1) err
            (dep + 1) [] (by simp) hga (by omega) (by omega)
          refine ⟨col2, ?_⟩
          rw [show json_print_value (.array (v :: vs)) i false ++ rest =
            91 :: (print_array_items (v :: vs) i false ++ 93 :: rest) by rw [hpa]; simp]
          rw [hct, parse_value_array_dispatch (g + 1),
            parse_array_step g c _ line col err dep false (by omega) hws hc93,
            ← hct, hitems]
          simp
      | object pairs =>
        have hgp : GoodP pairs = true := by simpa only [GoodB] using hgood
        simp only [heightV] at hdep
        have hpo := print_object_compact pairs i
        have hlen2 : (json_print_value (.object pairs) i false).length =
            (print_object_items pairs i false).length + 2 := by
          rw [hpo]; simp
        obtain ⟨g, rfl⟩ : ∃ g, f1 = g + 1 := ⟨f1 - 1, by omega⟩
        cases pairs with
        | nil =>
          refine ⟨col + 2, ?_⟩
          rw [show json_print_value (.object []) i false ++ rest = 123 :: 125 :: rest by
            rw [hpo]; simp [print_object_items]]
          rw [parse_value_object_dispatch (g + 1)]
          exact parse_object_empty g rest line col err dep false (by omega)
        | cons kv ps =>
          obtain ⟨k0, v0⟩ := kv
          have hhead : print_object_items ((k0, v0) :: ps) i false ++ 125 :: rest =
              34 :: ((truncNul k0 ++ 34 :: 58 :: (json_print_value v0 (i + 1) false ++
                ((if ps.isEmpty then [] else [44]) ++ print_object_items ps i false)))
                ++ 125 :: rest) := by
            rw [print_object_items_compact]
            rfl
          obtain ⟨col2, hpairs⟩ := (ih g (by omega)).2.2 ((k0, v0) :: ps) i rest line (col + 1)
            err (dep + 1) [] (by simp) hgp (by omega) (by omega)
          refine ⟨col2, ?_⟩
          rw [show json_print_value (.object ((k0, v0) :: ps)) i false ++ rest =
            123 :: (print_object_items ((k0, v0) :: ps) i false ++ 125 :: rest) by
            rw [hpo]; simp]
          rw [hhead, parse_value_object_dispatch (g + 1),
            parse_object_step g 34 _ line col err dep false (by omega) rfl (by omega),
            ← hhead, hpairs]
          simp
    · intro items i rest line col err dep acc hne hgood hdep hfuel
      cases items with
      | nil => exact absurd rfl hne
      | cons v vs =>
        simp only [GoodL, Bool.and_eq_true] at hgood
        obtain ⟨hgv, hgvs⟩ := hgood
        simp only [heightL] at hdep
        have hdv : dep + heightV v ≤ 128 := by
          have := le_max_left (heightV v) (heightL vs); omega
        obtain ⟨h, rfl⟩ : ∃ h, fuel = h + 1 := ⟨fuel - 1, by omega⟩
        have hlv := print_len_pos v (i + 1) hgv
        cases vs with
        | nil =>
          have hleq : print_array_items [v] i false = json_print_value v (i + 1) false := by
            rw [print_array_items_compact]; simp [print_array_items]
          obtain ⟨col2, hv⟩ := (ih h (by omega)).1 v (i + 1) (93 :: rest) line col err dep hgv
            (numSepB_cons v 93 rest rfl) hdv
            (by have := congrArg List.length hleq; omega)
          refine ⟨col2 + 1, ?_⟩
          rw [hleq]
          simp only [parse_array_items]
          rw [hv]
          try dsimp only
          rw [skip_whitespace_cons_nws 93 rest line col2 err dep false rfl,
            peek_char_at 93 rest line col2 err dep false 93 rfl]
          simp [consume_char_exact 93 rest line col2 err dep false rfl]
        | cons w ws =>
          have hleq : print_array_items (v :: w :: ws) i false =
              json_print_value v (i + 1) false ++ 44 :: print_array_items (w :: ws) i false := by
            rw [print_array_items_compact]; simp
          have hlen3 : (print_array_items (v :: w :: ws) i false).length =
              (json_print_value v (i + 1) false).length + 1 +
                (print_array_items (w :: ws) i false).length := by
            rw [hleq]; simp; omega
          have hin : print_array_items (v :: w :: ws) i false ++ 93 :: rest =
              json_print_value v (i + 1) false ++
                44 :: (print_array_items (w :: ws) i false ++ 93 :: rest) := by
            rw [hleq]; simp
          obtain ⟨col2, hv⟩ := (ih h (by omega)).1 v (i + 1)
            (44 :: (print_array_items (w :: ws) i false ++ 93 :: rest)) line col err dep hgv
            (numSepB_cons v 44 _ rfl) hdv (by omega)
          obtain ⟨col3, hrest⟩ := (ih h (by omega)).2.1 (w :: ws) i rest line (col2 + 1) err dep
            (acc ++ [v]) (by simp) hgvs
            (by have := le_max_right (heightV v) (heightL (w :: ws)); omega) (by omega)
          refine ⟨col3, ?_⟩
          rw [hin]
          simp only [parse_array_items]
          rw [hv]
          try dsimp only
          rw [skip_whitespace_cons_nws 44 _ line col2 err dep false rfl,
            peek_char_at 44 _ line col2 err dep false 93 rfl]
          rw [show (decide ((44 : Nat) = 93)) = false from rfl]
          try dsimp only
          rw [consume_char_exact 44 _ line col2 err dep false rfl]
          try dsimp only
          rw [hrest, show (acc ++ [v]) ++ (w :: ws) = acc ++ v :: w :: ws by simp]
    · intro pairs i rest line col err dep acc hne hgood hdep hfuel
      cases pairs with
      | nil => exact absurd rfl hne
      | cons kv ps =>
        obtain ⟨k, v⟩ := kv
        simp only [GoodP, Bool.and_eq_true] at hgood
        obtain ⟨⟨hpk, hgv⟩, hgps⟩ := hgood
        simp only [heightP] at hdep
        have hdv : dep + heightV v ≤ 128 := by
          have := le_max_left (heightV v) (heightP ps); omega
        obtain ⟨h, rfl⟩ : ∃ h, fuel = h + 1 := ⟨fuel - 1, by omega⟩
        have hlv := print_len_pos v (i + 1) hgv
        obtain ⟨hkl, hkb⟩ := plainStrB_elim k hpk
        have htk : truncNul k = k := truncNul_plain k (fun b hb => (hkb b hb).1)
        cases ps with
        | nil =>
          have hin : print_object_items [(k, v)] i false ++ 125 :: rest =
              34 :: (k ++ 34 :: (58 :: (json_print_value v (i + 1) false ++ 125 :: rest))) := by
            rw [print_object_items_compact, htk]; simp [print_object_items]
          have hlen3 : (print_object_items [(k, v)] i false).length =
              k.length + 3 + (json_print_value v (i + 1) false).length := by
            rw [print_object_items_compact, htk]; simp [print_object_items]; omega
          obtain ⟨col2, hv⟩ := (ih h (by omega)).1 v (i + 1) (125 :: rest) line
            (col + k.length + 2 + 1) err dep hgv (numSepB_cons v 125 rest rfl) hdv (by omega)
          refine ⟨col2 + 1, ?_⟩
          rw [hin]
          simp only [parse_object_items]
          rw [parse_string_print k (58 :: (json_print_value v (i + 1) false ++ 125 :: rest))
            line col err dep false hpk]
          try dsimp only
          rw [consume_char_exact 58 (json_print_value v (i + 1) false ++ 125 :: rest) line
            (col + k.length + 2) err dep false rfl]
          try dsimp only
          rw [hv]
          try dsimp only
          rw [skip_whitespace_cons_nws 125 rest line col2 err dep false rfl,
            peek_char_at 125 rest line col2 err dep false 125 rfl]
          simp [consume_char_exact 125 rest line col2 err dep false rfl]
        | cons q qs =>
          have hin : print_object_items ((k, v) :: q :: qs) i false ++ 125 :: rest =
              34 :: (k ++ 34 :: (58 :: (json_print_value v (i + 1) false ++
                44 :: (print_object_items (q :: qs) i false ++ 125 :: rest)))) := by
            rw [print_object_items_compact, htk]; simp
          have hlen3 : (print_object_items ((k, v) :: q :: qs) i false).length =
              k.length + 4 + (json_print_value v (i + 1) false).length +
                (print_object_items (q :: qs) i false).length := by
            rw [print_object_items_compact, htk]; simp; omega
          obtain ⟨col2, hv⟩ := (ih h (by omega)).1 v (i + 1)
            (44 :: (print_object_items (q :: qs) i false ++ 125 :: rest)) line
            (col + k.length + 2 + 1) err dep hgv (numSepB_cons v 44 _ rfl) hdv (by omega)
          obtain ⟨col3, hrest⟩ := (ih h (by omega)).2.2 (q :: qs) i rest line (col2 + 1) err dep
            (acc ++ [(k, v)]) (by simp) hgps
            (by have := le_max_right (heightV v) (heightP (q :: qs)); omega) (by omega)
          refine ⟨col3, ?_⟩
          rw [hin]
          simp only [parse_object_items]
          rw [parse_string_print k (58 :: (json_print_value v (i + 1) false ++
            44 :: (print_object_items (q :: qs) i false ++ 125 :: rest))) line col err dep
            false hpk]
          try dsimp only
          rw [consume_char_exact 58 (json_print_value v (i + 1) false ++
            44 :: (print_object_items (q :: qs) i false ++ 125 :: rest)) line
            (col + k.length + 2) err dep false rfl]
          try dsimp only
          rw [hv]
          try dsimp only
          rw [skip_whitespace_cons_nws 44 _ line col2 err dep false rfl,
            peek_char_at 44 _ line col2 err dep false 125 rfl]
          rw [show (decide ((44 : Nat) = 125)) = false from rfl]
          try dsimp only
          rw [consume_char_exact 44 _ line col2 err dep false rfl]
          try dsimp only
          rw [hrest, show (acc ++ [(k, v)]) ++ (q :: qs) = acc ++ (k, v) :: q :: qs by simp]

theorem parse_null_height (p : Parser) (v : JsonValue) (p' : Parser)
    (h : parse_null p = (some v, p')) : heightV v = 0 := by
  simp only [parse_null] at h
  split_ifs at h
  · injection h with h1 h2
    injection h1 with h1
    rw [← h1]
    rfl
  · simp [errSet] at h

theorem parse_boolean_height (p : Parser) (v : JsonValue) (p' : Parser)
    (h : parse_boolean p = (some v, p')) : heightV v = 0 := by
  simp only [parse_boolean] at h
  split_ifs at h
  · injection h with h1 h2
    injection h1 with h1
    rw [← h1]
    rfl
  · injection h with h1 h2
    injection h1 with h1
    rw [← h1]
    rfl
  · simp [errSet] at h

theorem parse_number_height (p : Parser) (v : JsonValue) (p' : Parser)
    (h : parse_number p = (some v, p')) : heightV v = 0 := by
  simp only [parse_number] at h
  rcases hc : parse_number_core p with ⟨od, p1, tr⟩
  rw [hc] at h
  cases od
  · simp [errSet] at h
  · dsimp only at h
    injection h with h1 h2
    injection h1 with h1
    rw [← h1]
    rfl

theorem parse_string_height (p : Parser) (v : JsonValue) (p' : Parser)
    (h : parse_string p = (some v, p')) : heightV v = 0 := by
  simp only [parse_string] at h
  rcases hc : consume_char p 34 with ⟨b, p1⟩
  rw [hc] at h
  cases b
  · simp at h
  · dsimp only at h
    rcases hs : string_scan p1 [] with ⟨os, p2⟩
    rw [hs] at h
    cases os
    · simp at h
    · dsimp only at h
      injection h with h1 h2
      injection h1 with h1
      rw [← h1]
      rfl

theorem height_master (fuel : Nat) :
    (∀ p v p', parse_value fuel p = (some v, p') → p.depth + heightV v ≤ max 128 p.depth) ∧
    (∀ p v p', parse_array fuel p = (some v, p') → p.depth + heightV v ≤ max 128 p.depth) ∧
    (∀ p v p', parse_object fuel p = (some v, p') → p.depth + heightV v ≤ max 128 p.depth) ∧
    (∀ p acc items p', parse_array_items fuel p acc = (some items, p') →
      ∀ v ∈ items, v ∈ acc ∨ p.depth + heightV v ≤ max 128 p.depth) ∧
    (∀ p acc prs p', parse_object_items fuel p acc = (some prs, p') →
      ∀ kv ∈ prs, kv ∈ acc ∨ p.depth + heightV kv.2 ≤ max 128 p.depth) := by
  induction fuel with
  | zero =>
    refine ⟨?_, ?_, ?_, ?_, ?_⟩
    · intro p v p' h; simp [parse_value, errSet] at h
    · intro p v p' h; simp [parse_array, errSet] at h
    · intro p v p' h; simp [parse_object, errSet] at h
    · intro p acc items p' h; simp [parse_array_items, errSet] at h
    · intro p acc prs p' h; simp [parse_object_items, errSet] at h
  | succ fuel ih =>
    obtain ⟨ihv, iha, iho, ihia, ihio⟩ := ih
    have hval : ∀ p v p', parse_value (fuel + 1) p = (some v, p') →
        p.depth + heightV v ≤ max 128 p.depth := by
      intro p v p' h
      have hmax := le_max_right 128 p.depth
      simp only [parse_value] at h
      rcases hsw : skip_whitespace p with ⟨rest, line, col, err, dep, ern⟩
      have hdep := skip_whitespace_depth p
      rw [hsw] at hdep h
      dsimp only at hdep
      rcases rest with _ | ⟨c, r⟩
      · simp at h
      · dsimp only at h
        split_ifs at h
        · have hx := parse_null_height _ _ _ h
          omega
        · have hx := parse_boolean_height _ _ _ h
          omega
        · have hx := parse_string_height _ _ _ h
          omega
        · have hx := iha _ _ _ h
          dsimp at hx
          rw [hdep] at hx
          exact hx
        · have hx := iho _ _ _ h
          dsimp at hx
          rw [hdep] at hx
          exact hx
        · have hx := parse_number_height _ _ _ h
          omega
        · simp at h
    refine ⟨hval, ?_, ?_, ?_, ?_⟩
    · intro p v p' h
      have hmax := le_max_right 128 p.depth
      simp only [parse_array] at h
      rcases hc : consume_char p 91 with ⟨b, p1⟩
      have hd1 := consume_char_depth p 91
      rw [hc] at hd1 h
      dsimp only at hd1
      cases b
      · simp at h
      · dsimp only at h
        split_ifs at h with hD
        · simp [errSet] at h
        · rcases hp : peek_char (skip_whitespace { p1 with depth := p1.depth + 1 }) 93
            with ⟨pb, p4⟩
          have hd4 : p4.depth = p1.depth + 1 := by
            have a1 := peek_char_depth (skip_whitespace { p1 with depth := p1.depth + 1 }) 93
            rw [hp] at a1
            have a2 := skip_whitespace_depth { p1 with depth := p1.depth + 1 }
            dsimp at a1 a2; omega
          rw [hp] at h
          cases pb
          · dsimp only at h
            rcases hi : parse_array_items fuel p4 [] with ⟨oi, p5⟩
            rw [hi] at h
            cases oi
            · simp at h
            · rename_i items
              dsimp only at h
              injection h with h1 h2
              injection h1 with h1
              have hmem := ihia p4 [] _ _ hi
              have hbound : ∀ w ∈ items, heightV w ≤ 128 - (p.depth + 1) := by
                intro w hw
                rcases hmem w hw with hfalse | hb
                · simp at hfalse
                · have := le_max_right 128 p4.depth
                  have hmx : max 128 p4.depth = 128 := by
                    apply Nat.max_eq_left
                    omega
                  rw [hmx] at hb
                  omega
              have hL := heightL_le items (128 - (p.depth + 1)) hbound
              rw [← h1]
              simp only [heightV]
              omega
          · dsimp only at h
            rcases hcc : consume_char p4 93 with ⟨b2, p5⟩
            rw [hcc] at h
            dsimp only at h
            injection h with h1 h2
            injection h1 with h1
            rw [← h1]
            simp only [heightV, heightL]
            omega
    · intro p v p' h
      have hmax := le_max_right 128 p.depth
      simp only [parse_object] at h
      rcases hc : consume_char p 123 with ⟨b, p1⟩
      have hd1 := consume_char_depth p 123
      rw [hc] at hd1 h
      dsimp only at hd1
      cases b
      · simp at h
      · dsimp only at h
        split_ifs at h with hD
        · simp [errSet] at h
        · rcases hp : peek_char (skip_whitespace { p1 with depth := p1.depth + 1 }) 125
            with ⟨pb, p4⟩
          have hd4 : p4.depth = p1.depth + 1 := by
            have a1 := peek_char_depth (skip_whitespace { p1 with depth := p1.depth + 1 }) 125
            rw [hp] at a1
            have a2 := skip_whitespace_depth { p1 with depth := p1.depth + 1 }
            dsimp at a1 a2; omega
          rw [hp] at h
          cases pb
          · dsimp only at h
            rcases hi : parse_object_items fuel p4 [] with ⟨oi, p5⟩
            rw [hi] at h
            cases oi
            · simp at h
            · rename_i prs
              dsimp only at h
              injection h with h1 h2
              injection h1 with h1
              have hmem := ihio p4 [] _ _ hi
              have hbound : ∀ w ∈ prs, heightV w.2 ≤ 128 - (p.depth + 1) := by
                intro w hw
                rcases hmem w hw with hfalse | hb
                · simp at hfalse
                · have := le_max_right 128 p4.depth
                  have hmx : max 128 p4.depth = 128 := by
                    apply Nat.max_eq_left
                    omega
                  rw [hmx] at hb
                  omega
              have hL := heightP_le prs (128 - (p.depth + 1)) hbound
              rw [← h1]
              simp only [heightV]
              omega
          · dsimp only at h
            rcases hcc : consume_char p4 125 with ⟨b2, p5⟩
            rw [hcc] at h
            dsimp only at h
            injection h with h1 h2
            injection h1 with h1
            rw [← h1]
            simp only [heightV, heightP]
            omega
    · intro p acc items p' h
      simp only [parse_array_items] at h
      rcases hv : parse_value fuel p with ⟨ov, p1⟩
      rw [hv] at h
      cases ov
      · simp at h
      case some item =>
        dsimp only at h
        have hitem := ihv p _ _ hv
        have hd1 := (depth_master fuel).1 p _ _ hv
        rcases hp : peek_char (skip_whitespace p1) 93 with ⟨pb, p3⟩
        have hd3 : p3.depth = p1.depth := by
          have a1 := peek_char_depth (skip_whitespace p1) 93
          rw [hp] at a1
          have a2 := skip_whitespace_depth p1
          dsimp at a1; omega
        rw [hp] at h
        cases pb
        · dsimp only at h
          rcases hcc : consume_char p3 44 with ⟨b2, p4⟩
          have hd4 := consume_char_depth p3 44
          rw [hcc] at hd4 h
          dsimp only at hd4
          cases b2
          · simp at h
          · dsimp only at h
            have hrec := ihia p4 _ _ _ h
            intro w hw
            rcases hrec w hw with hmem | hb
            · rcases List.mem_append.1 hmem with hmem | hmem
              · exact Or.inl hmem
              · simp only [List.mem_singleton] at hmem
                subst hmem
                exact Or.inr hitem
            · right
              have hdeq : p4.depth = p.depth := by omega
              rw [hdeq] at hb
              exact hb
        · dsimp only at h
          injection h with h1 h2
          injection h1 with h1
          subst h1
          intro w hw
          rcases List.mem_append.1 hw with hmem | hmem
          · exact Or.inl hmem
          · simp only [List.mem_singleton] at hmem
            subst hmem
            exact Or.inr hitem
    · intro p acc prs p' h
      simp only [parse_object_items] at h
      rcases hs : parse_string p with ⟨os, p1⟩
      have hd1 := parse_string_depth p
      rw [hs] at hd1 h
      dsimp only at hd1
      cases os
      · simp [errSet] at h
      case some kv =>
        dsimp only at h
        rcases kv with _ | b | d | key | iarr | iobj
        case string =>
          rcases hc2 : consume_char p1 58 with ⟨b2, p2⟩
          have hd2 := consume_char_depth p1 58
          rw [hc2] at hd2 h
          dsimp only at hd2
          cases b2
          · simp at h
          · dsimp only at h
            rcases hv : parse_value fuel p2 with ⟨ov, p3⟩
            rw [hv] at h
            cases ov
            · simp at h
            case some item =>
              dsimp only at h
              have hitem0 := ihv p2 _ _ hv
              have hitem : p.depth + heightV item ≤ max 128 p.depth := by
                have : p2.depth = p.depth := by omega
                rw [this] at hitem0
                exact hitem0
              have hd3 := (depth_master fuel).1 p2 _ _ hv
              rcases hp : peek_char (skip_whitespace p3) 125 with ⟨pb, p4⟩
              have hd4 : p4.depth = p3.depth := by
                have a1 := peek_char_depth (skip_whitespace p3) 125
                rw [hp] at a1
                have a2 := skip_whitespace_depth p3
                dsimp at a1; omega
              rw [hp] at h
              cases pb
              · dsimp only at h
                rcases hcc : consume_char p4 44 with ⟨b3, p5⟩
                have hd5 := consume_char_depth p4 44
                rw [hcc] at hd5 h
                dsimp only at hd5
                cases b3
                · simp at h
                · dsimp only at h
                  have hrec := ihio p5 _ _ _ h
                  intro w hw
                  rcases hrec w hw with hmem | hb
                  · rcases List.mem_append.1 hmem with hmem | hmem
                    · exact Or.inl hmem
                    · simp only [List.mem_singleton] at hmem
                      subst hmem
                      exact Or.inr hitem
                  · right
                    have hdeq : p5.depth = p.depth := by omega
                    rw [hdeq] at hb
                    exact hb
              · dsimp only at h
                injection h with h1 h2
                injection h1 with h1
                subst h1
                intro w hw
                rcases List.mem_append.1 hw with hmem | hmem
                · exact Or.inl hmem
                · simp only [List.mem_singleton] at hmem
                  subst hmem
                  exact Or.inr hitem
        all_goals simp [errSet] at h

theorem deep_master (fuel : Nat) :
    (∀ (v : JsonValue) (i : Nat) (rest : List Nat) (line col : Nat) (err : ErrKind) (dep : Nat),
      GoodB v = true → dep ≤ 128 → 128 < dep + heightV v →
      2 * (json_print_value v i false).length ≤ fuel →
      ∃ p', parse_value fuel ⟨json_print_value v i false ++ rest, line, col, err, dep, false⟩ =
        (none, p') ∧ p'.error = .maxNestingDepthExceeded) ∧
    (∀ (items : List JsonValue) (i : Nat) (rest : List Nat) (line col : Nat) (err : ErrKind)
        (dep : Nat) (acc : List JsonValue),
      GoodL items = true → dep ≤ 128 → 128 < dep + heightL items →
      2 * (print_array_items items i false).length + 2 ≤ fuel →
      ∃ p', parse_array_items fuel
          ⟨print_array_items items i false ++ 93 :: rest, line, col, err, dep, false⟩ acc =
        (none, p') ∧ p'.error = .maxNestingDepthExceeded) ∧
    (∀ (pairs : List (List Nat × JsonValue)) (i : Nat) (rest : List Nat) (line col : Nat)
        (err : ErrKind) (dep : Nat) (acc : List (List Nat × JsonValue)),
      GoodP pairs = true → dep ≤ 128 → 128 < dep + heightP pairs →
      2 * (print_object_items pairs i false).length + 2 ≤ fuel →
      ∃ p', parse_object_items fuel
          ⟨print_object_items pairs i false ++ 125 :: rest, line, col, err, dep, false⟩ acc =
        (none, p') ∧ p'.error = .maxNestingDepthExceeded) := by
  induction fuel using Nat.strong_induction_on with
  | _ fuel ih =>
    refine ⟨?_, ?_, ?_⟩
    · intro v i rest line col err dep hgood hdep hdeep hfuel
      have hlp := print_len_pos v i hgood
      obtain ⟨f1, rfl⟩ : ∃ f1, fuel = f1 + 1 := ⟨fuel - 1, by omega⟩
      cases v with
      | null => simp only [heightV] at hdeep; exact absurd hdeep (by omega)
      | boolean b => simp only [heightV] at hdeep; exact absurd hdeep (by omega)
      | number d => simp only [heightV] at hdeep; exact absurd hdeep (by omega)
      | string s => simp only [heightV] at hdeep; exact absurd hdeep (by omega)
      | array items =>
        have hga : GoodL items = true := by simpa only [GoodB] using hgood
        simp only [heightV] at hdeep
        have hpa := print_array_compact items i
        have hlen2 : (json_print_value (.array items) i false).length =
            (print_array_items items i false).length + 2 := by
          rw [hpa]; simp
        obtain ⟨g, rfl⟩ : ∃ g, f1 = g + 1 := ⟨f1 - 1, by omega⟩
        by_cases hD : 128 < dep + 1
        · refine ⟨⟨print_array_items items i false ++ 93 :: rest, line, col + 1,
            .maxNestingDepthExceeded, dep + 1, false⟩, ?_, rfl⟩
          rw [show json_print_value (.array items) i false ++ rest =
            91 :: (print_array_items items i false ++ 93 :: rest) by rw [hpa]; simp]
          rw [parse_value_array_dispatch (g + 1)]
          exact parse_array_deep g _ line col err dep false hD
        · cases items with
          | nil => simp only [heightL] at hdeep; exact absurd hdeep (by omega)
          | cons v vs =>
            have hgv : GoodB v = true := by
              simp only [GoodL, Bool.and_eq_true] at hga; exact hga.1
            obtain ⟨c, t, hpv, hws, hc93, _, _⟩ := print_head_ne v (i + 1) hgv
            have hct : print_array_items (v :: vs) i false ++ 93 :: rest =
                c :: (t ++ ((if vs.isEmpty then [] else [44]) ++ print_array_items vs i false)
                  ++ 93 :: rest) := by
              rw [print_array_items_compact, hpv]; simp
            obtain ⟨p', hitems, herr⟩ := (ih g (by omega)).2.1 (v :: vs) i rest line (col + 1)
              err (dep + 1) [] hga (by omega) (by omega) (by omega)
            refine ⟨p', ?_, herr⟩
            rw [show json_print_value (.array (v :: vs)) i false ++ rest =
              91 :: (print_array_items (v :: vs) i false ++ 93 :: rest) by rw [hpa]; simp]
            rw [hct, parse_value_array_dispatch (g + 1),
              parse_array_step g c _ line col err dep false (by omega) hws hc93,
              ← hct, hitems]
      | object pairs =>
        have hgp : GoodP pairs = true := by simpa only [GoodB] using hgood
        simp only [heightV] at hdeep
        have hpo := print_object_compact pairs i
        have hlen2 : (json_print_value (.object pairs) i false).length =
            (print_object_items pairs i false).length + 2 := by
          rw [hpo]; simp
        obtain ⟨g, rfl⟩ : ∃ g, f1 = g + 1 := ⟨f1 - 1, by omega⟩
        by_cases hD : 128 < dep + 1
        · refine ⟨⟨print_object_items pairs i false ++ 125 :: rest, line, col + 1,
            .maxNestingDepthExceeded, dep + 1, false⟩, ?_, rfl⟩
          rw [show json_print_value (.object pairs) i false ++ rest =
            123 :: (print_object_items pairs i false ++ 125 :: rest) by rw [hpo]; simp]
          rw [parse_value_object_dispatch (g + 1)]
          exact parse_object_deep g _ line col err dep false hD
        · cases pairs with
          | nil => simp only [heightP] at hdeep; exact absurd hdeep (by omega)
          | cons kv ps =>
            obtain ⟨k0, v0⟩ := kv
            have hhead : print_object_items ((k0, v0) :: ps) i false ++ 125 :: rest =
                34 :: ((truncNul k0 ++ 34 :: 58 :: (json_print_value v0 (i + 1) false ++
                  ((if ps.isEmpty then [] else [44]) ++ print_object_items ps i false)))
                  ++ 125 :: rest) := by
              rw [print_object_items_compact]
              rfl
            obtain ⟨p', hpairs, herr⟩ := (ih g (by omega)).2.2 ((k0, v0) :: ps) i rest line
              (col + 1) err (dep + 1) [] hgp (by omega) (by omega) (by omega)
            refine ⟨p', ?_, herr⟩
            rw [show json_print_value (.object ((k0, v0) :: ps)) i false ++ rest =
              123 :: (print_object_items ((k0, v0) :: ps) i false ++ 125 :: rest) by
              rw [hpo]; simp]
            rw [hhead, parse_value_object_dispatch (g + 1),
              parse_object_step g 34 _ line col err dep false (by omega) rfl (by omega),
              ← hhead, hpairs]
    · intro items i rest line col err dep acc hgood hdep hdeep hfuel
      cases items with
      | nil => simp only [heightL] at hdeep; exact absurd hdeep (by omega)
      | cons v vs =>
        simp only [GoodL, Bool.and_eq_true] at hgood
        obtain ⟨hgv, hgvs⟩ := hgood
        simp only [heightL] at hdeep
        obtain ⟨h, rfl⟩ : ∃ h, fuel = h + 1 := ⟨fuel - 1, by omega⟩
        have hlv := print_len_pos v (i + 1) hgv
        by_cases hdv : 128 < dep + heightV v
        · cases vs with
          | nil =>
            have hleq : print_array_items [v] i false = json_print_value v (i + 1) false := by
              rw [print_array_items_compact]; simp [print_array_items]
            obtain ⟨p', hv', herr⟩ := (ih h (by omega)).1 v (i + 1) (93 :: rest) line col err
              dep hgv hdep hdv (by have := congrArg List.length hleq; omega)
            refine ⟨p', ?_, herr⟩
            rw [hleq]
            simp only [parse_array_items]
            rw [hv']
          | cons w ws =>
            have hleq : print_array_items (v :: w :: ws) i false =
                json_print_value v (i + 1) false ++
                  44 :: print_array_items (w :: ws) i false := by
              rw [print_array_items_compact]; simp
            have hlen3 : (print_array_items (v :: w :: ws) i false).length =
                (json_print_value v (i + 1) false).length + 1 +
                  (print_array_items (w :: ws) i false).length := by
              rw [hleq]; simp; omega
            have hin : print_array_items (v :: w :: ws) i false ++ 93 :: rest =
                json_print_value v (i + 1) false ++
                  44 :: (print_array_items (w :: ws) i false ++ 93 :: rest) := by
              rw [hleq]; simp
            obtain ⟨p', hv', herr⟩ := (ih h (by omega)).1 v (i + 1)
              (44 :: (print_array_items (w :: ws) i false ++ 93 :: rest)) line col err dep
              hgv hdep hdv (by omega)
            refine ⟨p', ?_, herr⟩
            rw [hin]
            simp only [parse_array_items]
            rw [hv']
        · have hdv' : dep + heightV v ≤ 128 := by omega
          cases vs with
          | nil =>
            exfalso
            simp only [heightL, Nat.max_zero] at hdeep
            omega
          | cons w ws =>
            have hdw : 128 < dep + heightL (w :: ws) := by
              rcases le_total (heightV v) (heightL (w :: ws)) with hle | hle
              · rw [max_eq_right hle] at hdeep; exact hdeep
              · rw [max_eq_left hle] at hdeep; omega
            have hleq : print_array_items (v :: w :: ws) i false =
                json_print_value v (i + 1) false ++
                  44 :: print_array_items (w :: ws) i false := by
              rw [print_array_items_compact]; simp
            have hlen3 : (print_array_items (v :: w :: ws) i false).length =
                (json_print_value v (i + 1) false).length + 1 +
                  (print_array_items (w :: ws) i false).length := by
              rw [hleq]; simp; omega
            have hin : print_array_items (v :: w :: ws) i false ++ 93 :: rest =
                json_print_value v (i + 1) false ++
                  44 :: (print_array_items (w :: ws) i false ++ 93 :: rest) := by
              rw [hleq]; simp
            obtain ⟨col2, hv'⟩ := (roundtrip_master h).1 v (i + 1)
              (44 :: (print_array_items (w :: ws) i false ++ 93 :: rest)) line col err dep
              hgv (numSepB_cons v 44 _ rfl) hdv' (by omega)
            obtain ⟨p', hrest, herr⟩ := (ih h (by omega)).2.1 (w :: ws) i rest line (col2 + 1)
              err dep (acc ++ [v]) hgvs hdep hdw (by omega)
            refine ⟨p', ?_, herr⟩
            rw [hin]
            simp only [parse_array_items]
            rw [hv']
            try dsimp only
            rw [skip_whitespace_cons_nws 44 _ line col2 err dep false rfl,
              peek_char_at 44 _ line col2 err dep false 93 rfl]
            rw [show (decide ((44 : Nat) = 93)) = false from rfl]
            try dsimp only
            rw [consume_char_exact 44 _ line col2 err dep false rfl]
            try dsimp only
            rw [hrest]
    · intro pairs i rest line col err dep acc hgood hdep hdeep hfuel
      cases pairs with
      | nil => simp only [heightP] at hdeep; exact absurd hdeep (by omega)
      | cons kv ps =>
        obtain ⟨k, v⟩ := kv
        simp only [GoodP, Bool.and_eq_true] at hgood
        obtain ⟨⟨hpk, hgv⟩, hgps⟩ := hgood
        simp only [heightP] at hdeep
        obtain ⟨h, rfl⟩ : ∃ h, fuel = h + 1 := ⟨fuel - 1, by omega⟩
        have hlv := print_len_pos v (i + 1) hgv
        obtain ⟨hkl, hkb⟩ := plainStrB_elim k hpk
        have htk : truncNul k = k := truncNul_plain k (fun b hb => (hkb b hb).1)
        by_cases hdv : 128 < dep + heightV v
        · cases ps with
          | nil =>
            have hin : print_object_items [(k, v)] i false ++ 125 :: rest =
                34 :: (k ++ 34 :: (58 :: (json_print_value v (i + 1) false ++
                  125 :: rest))) := by
              rw [print_object_items_compact, htk]; simp [print_object_items]
            have hlen3 : (print_object_items [(k, v)] i false).length =
                k.length + 3 + (json_print_value v (i + 1) false).length := by
              rw [print_object_items_compact, htk]; simp [print_object_items]; omega
            obtain ⟨p', hv', herr⟩ := (ih h (by omega)).1 v (i + 1) (125 :: rest) line
              (col + k.length + 2 + 1) err dep hgv hdep hdv (by omega)
            refine ⟨p', ?_, herr⟩
            rw [hin]
            simp only [parse_object_items]
            rw [parse_string_print k (58 :: (json_print_value v (i + 1) false ++ 125 :: rest))
              line col err dep false hpk]
            try dsimp only
            rw [consume_char_exact 58 (json_print_value v (i + 1) false ++ 125 :: rest) line
              (col + k.length + 2) err dep false rfl]
            try dsimp only
            rw [hv']
          | cons q qs =>
            have hin : print_object_items ((k, v) :: q :: qs) i false ++ 125 :: rest =
                34 :: (k ++ 34 :: (58 :: (json_print_value v (i + 1) false ++
                  44 :: (print_object_items (q :: qs) i false ++ 125 :: rest)))) := by
              rw [print_object_items_compact, htk]; simp
            have hlen3 : (print_object_items ((k, v) :: q :: qs) i false).length =
                k.length + 4 + (json_print_value v (i + 1) false).length +
                  (print_object_items (q :: qs) i false).length := by
              rw [print_object_items_compact, htk]; simp; omega
            obtain ⟨p', hv', herr⟩ := (ih h (by omega)).1 v (i + 1)
              (44 :: (print_object_items (q :: qs) i false ++ 125 :: rest)) line
              (col + k.length + 2 + 1) err dep hgv hdep hdv (by omega)
            refine ⟨p', ?_, herr⟩
            rw [hin]
            simp only [parse_object_items]
            rw [parse_string_print k (58 :: (json_print_value v (i + 1) false ++
              44 :: (print_object_items (q :: qs) i false ++ 125 :: rest))) line col err dep
              false hpk]
            try dsimp only
            rw [consume_char_exact 58 (json_print_value v (i + 1) false ++
              44 :: (print_object_items (q :: qs) i false ++ 125 :: rest)) line
              (col + k.length + 2) err dep false rfl]
            try dsimp only
            rw [hv']
        · have hdv' : dep + heightV v ≤ 128 := by omega
          cases ps with
          | nil =>
            exfalso
            simp only [heightP, Nat.max_zero] at hdeep
            omega
          | cons q qs =>
            have hdw : 128 < dep + heightP (q :: qs) := by
              rcases le_total (heightV v) (heightP (q :: qs)) with hle | hle
              · rw [max_eq_right hle] at hdeep; exact hdeep
              · rw [max_eq_left hle] at hdeep; omega
            have hin : print_object_items ((k, v) :: q :: qs) i false ++ 125 :: rest =
                34 :: (k ++ 34 :: (58 :: (json_print_value v (i + 1) false ++
                  44 :: (print_object_items (q :: qs) i false ++ 125 :: rest)))) := by
              rw [print_object_items_compact, htk]; simp
            have hlen3 : (print_object_items ((k, v) :: q :: qs) i false).length =
                k.length + 4 + (json_print_value v (i + 1) false).length +
                  (print_object_items (q :: qs) i false).length := by
              rw [print_object_items_compact, htk]; simp; omega
            obtain ⟨col2, hv'⟩ := (roundtrip_master h).1 v (i + 1)
              (44 :: (print_object_items (q :: qs) i false ++ 125 :: rest)) line
              (col + k.length + 2 + 1) err dep hgv (numSepB_cons v 44 _ rfl) hdv' (by omega)
            obtain ⟨p', hrest, herr⟩ := (ih h (by omega)).2.2 (q :: qs) i rest line (col2 + 1)
              err dep (acc ++ [(k, v)]) hgps hdep hdw (by omega)
            refine ⟨p', ?_, herr⟩
            rw [hin]
            simp only [parse_object_items]
            rw [parse_string_print k (58 :: (json_print_value v (i + 1) false ++
              44 :: (print_object_items (q :: qs) i false ++ 125 :: rest))) line col err dep
              false hpk]
            try dsimp only
            rw [consume_char_exact 58 (json_print_value v (i + 1) false ++
              44 :: (print_object_items (q :: qs) i false ++ 125 :: rest)) line
              (col + k.length + 2) err dep false rfl]
            try dsimp only
            rw [hv']
            try dsimp only
            rw [skip_whitespace_cons_nws 44 _ line col2 err dep false rfl,
              peek_char_at 44 _ line col2 err dep false 125 rfl]
            rw [show (decide ((44 : Nat) = 125)) = false from rfl]
            try dsimp only
            rw [consume_char_exact 44 _ line col2 err dep false rfl]
            try dsimp only
            rw [hrest]

theorem json_parse_success_value (e : Bool) (x : List Nat) (v : JsonValue)
    (hp : json_parse e (some x) = (some v, [])) :
    ∃ p1, parse_value (initFuel x) (initParser e x) = (some v, p1) := by
  simp only [json_parse] at hp
  rcases hpv : parse_value (initFuel x) (initParser e x) with ⟨ov, p1⟩
  rw [hpv] at hp
  cases ov with
  | none => simp at hp
  | some v0 =>
    dsimp only at hp
    rcases hre : (skip_whitespace p1).rest with _ | ⟨c, r⟩
    · rw [hre] at hp
      dsimp only at hp
      injection hp with h1 h2
      injection h1 with h1
      refine ⟨p1, ?_⟩
      try rw [hpv]
      rw [h1]
    · rw [hre] at hp
      simp at hp

theorem json_parse_print_good (v : JsonValue) (hg : GoodB v = true)
    (hh : heightV v ≤ 128) :
    json_parse false (some (printCompact v)) = (some v, []) := by
  obtain ⟨col2, hrt⟩ := (roundtrip_master (initFuel (printCompact v))).1 v 0 [] 1 1 .noError 0
    hg (by cases v <;> simp [numSepB]) (by omega)
    (by simp only [initFuel, printCompact]; omega)
  rw [List.append_nil] at hrt
  simp only [printCompact] at hrt
  simp only [json_parse, initParser, printCompact]
  rw [hrt]
  simp [skip_whitespace, skip_whitespace_aux]

/-- C1 (amended): for every input on which the parse succeeds, if the resulting
tree contains only plain strings and keys (no byte the printer would need to
escape, within the scan bound) and only canonical integral numbers below `1e10`
in magnitude (the `%.0f` branch), then re-parsing the compact serialization
succeeds and returns a structurally equal tree.  The restrictions are necessary:
see the C1 counterexample for a string and a number whose print does not
re-parse to the same value. -/
theorem c1_amended_roundtrip (x : List Nat) (v : JsonValue)
    (hp : json_parse false (some x) = (some v, []))
    (hg : GoodB v = true) :
    json_parse false (some (printCompact v)) = (some v, []) := by
  obtain ⟨p1, hpv⟩ := json_parse_success_value false x v hp
  have hh := (height_master (initFuel x)).1 (initParser false x) v p1 hpv
  have hd0 : (initParser false x).depth = 0 := rfl
  rw [hd0] at hh
  have hmx : max 128 0 = 128 := by norm_num
  exact json_parse_print_good v hg (by omega)

theorem c1_amended_witness :
    json_parse false (some [91, 49, 93]) = (some (.array [.number ⟨1, 0⟩]), []) ∧
    json_parse false (some (printCompact (.array [.number ⟨1, 0⟩]))) =
      (some (.array [.number ⟨1, 0⟩]), []) :=
  ⟨rfl, c1_amended_roundtrip [91, 49, 93] (.array [.number ⟨1, 0⟩]) rfl rfl⟩

/-- Tower of singleton arrays of the given height around `null`. -/
def nest : Nat → JsonValue
  | 0 => .null
  | n + 1 => .array [nest n]

/-- C6: a tree of plain strings and good numbers whose containers nest to
exactly the maximum depth (`MAX_DEPTH = 128`) parses back successfully from
its compact serialization, and one whose containers nest one level deeper
fails with the `Maximum nesting depth exceeded` diagnostic on stderr. -/
theorem c6_max_depth (v : JsonValue) (hg : GoodB v = true) :
    (heightV v = 128 → json_parse false (some (printCompact v)) = (some v, [])) ∧
    (heightV v = 129 → json_parse false (some (printCompact v)) =
      (none, [.maxNestingDepthExceeded])) := by
  constructor
  · intro hh
    exact json_parse_print_good v hg (by omega)
  · intro hh
    obtain ⟨p', hfail, herr⟩ := (deep_master (initFuel (printCompact v))).1 v 0 [] 1 1
      .noError 0 hg (by omega) (by omega) (by simp only [initFuel, printCompact]; omega)
    rw [List.append_nil] at hfail
    simp only [printCompact] at hfail
    simp only [json_parse, initParser, printCompact]
    rw [hfail]
    dsimp only
    rw [herr]

set_option maxRecDepth 10000 in
theorem c6_witness :
    json_parse false (some (printCompact (nest 128))) = (some (nest 128), []) ∧
    json_parse false (some (printCompact (nest 129))) =
      (none, [.maxNestingDepthExceeded]) :=
  ⟨(c6_max_depth (nest 128) (by decide)).1 (by decide),
   (c6_max_depth (nest 129) (by decide)).2 (by decide)⟩
